import Mathlib

/-!
Verification of the fine-tuning subsystem of the qwglm repository.

Each source file is embedded shallowly: TypeScript classes become Lean
structures, methods become functions from an old state (plus explicit clock
arguments standing for the host Date.now calls) to a new state, Float32Array
buffers become lists over an exact numeric field (rationals where the source
uses only field operations, reals where it calls transcendental functions),
and JS Map objects become insertion-ordered association lists.  Out-of-range
typed-array reads, which produce NaN in JS, are modelled with a zero default;
no theorem below exercises that corner.
-/

/-! ## Training queue (src/lib/finetuning/training-queue.ts) -/

/-- A training example as in training-queue.ts.  The priority field carries
the numeric enum value: HIGH = 3, MEDIUM = 2, LOW = 1. -/
structure TrainingExample where
  id : String
  input : String
  output : String
  priority : Nat
  timestamp : Int
  deriving DecidableEq

instance : Inhabited TrainingExample := ⟨⟨"", "", "", 0, 0⟩⟩

namespace TrainingExample

def HIGH : Nat := 3

def MEDIUM : Nat := 2

def LOW : Nat := 1

end TrainingExample

/-- State of the TrainingQueue class: the example list, the processed-id set
(modelled as a list used only through membership) and the private
maxQueueSize field, set to 10000 by the constructor. -/
structure TrainingQueue where
  queue : List TrainingExample
  processedIds : List String
  maxQueueSize : Nat
  deriving DecidableEq

namespace TrainingQueue

/-- A fresh queue as built by the class initializers. -/
def initial : TrainingQueue := ⟨[], [], 10000⟩

/-- The sortByPriority comparator as a before-or-equal relation: the JS
comparator returns a nonpositive value on (a, b) exactly when b has lower
priority than a, or equal priority and a timestamp at most that of a. -/
def sortBefore (a b : TrainingExample) : Prop :=
  b.priority < a.priority ∨ (a.priority = b.priority ∧ b.timestamp ≤ a.timestamp)

instance : DecidableRel sortBefore := fun _ _ =>
  inferInstanceAs (Decidable (_ ∨ _))

/-- sortByPriority: Array.prototype.sort is a stable sort, and for a total
preorder every stable sort returns the same list, so the model uses
insertion sort, which Mathlib proves stable and sorted. -/
def sortByPriority (q : List TrainingExample) : List TrainingExample :=
  q.insertionSort sortBefore

/-- add: return unchanged when the id is in the processed set; otherwise
shift the first queue element when at capacity (deleting its id from the
processed set), push the example and re-sort. -/
def add (s : TrainingQueue) (ex : TrainingExample) : TrainingQueue :=
  if ex.id ∈ s.processedIds then s
  else
    let qp :=
      if s.maxQueueSize ≤ s.queue.length then
        match s.queue with
        | [] => (([] : List TrainingExample), s.processedIds)
        | removed :: rest => (rest, s.processedIds.filter (fun i => i ≠ removed.id))
      else (s.queue, s.processedIds)
    { s with queue := sortByPriority (qp.1 ++ [ex]), processedIds := qp.2 }

/-- addBatch: sequential add. -/
def addBatch (s : TrainingQueue) (exs : List TrainingExample) : TrainingQueue :=
  exs.foldl add s

/-- getBatch: read the first size elements without removing them. -/
def getBatch (s : TrainingQueue) (size : Nat) : List TrainingExample :=
  s.queue.take size

/-- removeBatch: drop matching examples and mark every given id processed. -/
def removeBatch (s : TrainingQueue) (ids : List String) : TrainingQueue :=
  { s with
    queue := s.queue.filter (fun ex => ex.id ∉ ids),
    processedIds := ids.foldl (fun p i => if i ∈ p then p else p ++ [i]) s.processedIds }

/-- size accessor. -/
def size (s : TrainingQueue) : Nat := s.queue.length

/-- isEmpty accessor. -/
def isEmpty (s : TrainingQueue) : Bool := s.queue.length = 0

end TrainingQueue

/-! ## Theorems for claims C1 and C2 -/

/-- Concrete examples used in the queue theorems below. -/
def exDupA : TrainingExample := ⟨"a", "in", "out", TrainingExample.HIGH, 1⟩

def exHighNew : TrainingExample := ⟨"h", "in", "out", TrainingExample.HIGH, 10⟩

def exLowOld : TrainingExample := ⟨"l", "in", "out", TrainingExample.LOW, 1⟩

def exMedMid : TrainingExample := ⟨"m", "in", "out", TrainingExample.MEDIUM, 5⟩

/-- C1, counterexample: adding the same example twice to a fresh queue is not
a no-op.  The duplicate id is still enqueued, not yet processed, so the
dedup check against processedIds does not fire and the queue grows to two
entries holding two copies of the same id. -/
theorem claim1_counterexample :
    (TrainingQueue.initial.add exDupA).queue.length = 1 ∧
    ((TrainingQueue.initial.add exDupA).add exDupA).queue.length = 2 := by
  decide

/-- C1, amended: add is a no-op exactly on ids recorded in the processed set
(populated by removeBatch); the queue state is then unchanged. -/
theorem claim1_dedup_only_processed (s : TrainingQueue) (ex : TrainingExample)
    (h : ex.id ∈ s.processedIds) : s.add ex = s := by
  simp [TrainingQueue.add, h]

/-- C1, witness for the amended theorem at a concrete processed id. -/
theorem claim1_witness :
    exDupA.id ∈ (⟨[], ["a"], 10000⟩ : TrainingQueue).processedIds ∧
    TrainingQueue.add ⟨[], ["a"], 10000⟩ exDupA = ⟨[], ["a"], 10000⟩ :=
  ⟨by decide, claim1_dedup_only_processed _ _ (by decide)⟩

/-- C2, code evaluation: when add evicts, it shifts the FIRST element of the
queue.  The queue is maintained sorted by priority descending and timestamp
descending, so the shifted element ranks at least as high as every queued
element under the sort order: the highest-priority, most recent entry is
evicted, not the lowest-ranked one as the claim and the comment above the
shift call ("Remove oldest items") state. -/
theorem claim2_evicts_head (s : TrainingQueue) (ex : TrainingExample)
    (hid : ex.id ∉ s.processedIds) (hfull : s.maxQueueSize ≤ s.queue.length)
    (hne : s.queue ≠ []) :
    (s.add ex).queue.Perm (ex :: s.queue.tail) ∧
    (s.queue.Pairwise TrainingQueue.sortBefore →
      ∀ e ∈ s.queue, TrainingQueue.sortBefore s.queue.headI e) := by
  obtain ⟨removed, rest, hq⟩ : ∃ r t, s.queue = r :: t := by
    cases h : s.queue with
    | nil => exact absurd h hne
    | cons a l => exact ⟨a, l, rfl⟩
  constructor
  · have hfull2 : s.maxQueueSize ≤ rest.length + 1 := by
      simpa [hq] using hfull
    have h1 : (s.add ex).queue = TrainingQueue.sortByPriority (rest ++ [ex]) := by
      simp [TrainingQueue.add, hid, hq, hfull2]
    rw [h1, hq]
    exact (List.perm_insertionSort _ _).trans (List.perm_append_singleton ex rest)
  · intro hsorted e he
    have hh : s.queue.headI = removed := by rw [hq]; rfl
    rw [hq] at hsorted he
    rw [hh]
    rcases List.mem_cons.mp he with rfl | he2
    · exact Or.inr ⟨rfl, le_refl _⟩
    · exact (List.pairwise_cons.mp hsorted).1 e he2

/-- C2, witness: a two-element queue at capacity two; adding a MEDIUM example
evicts the HIGH, most recent entry. -/
theorem claim2_witness :
    exMedMid.id ∉ (⟨[exHighNew, exLowOld], [], 2⟩ : TrainingQueue).processedIds ∧
    ((⟨[exHighNew, exLowOld], [], 2⟩ : TrainingQueue).add exMedMid).queue.Perm
      (exMedMid :: [exLowOld]) :=
  ⟨by decide,
   (claim2_evicts_head ⟨[exHighNew, exLowOld], [], 2⟩ exMedMid (by decide) (by decide)
     (by decide)).1⟩

/-! ## Weight updater (src/lib/finetuning/weight-updater.ts)

Weight buffers are Float32Array values mutated only by field operations, so
they are modelled exactly over the rationals.  The name-keyed weight store
(a JS Map) is an insertion-ordered association list. -/

/-- Quality metrics attached to a snapshot. -/
structure WUMetrics where
  loss : ℚ
  perplexity : Option ℚ
  accuracy : Option ℚ
  deriving DecidableEq

/-- A snapshot: timestamp, deep-copied weights, optional metrics. -/
structure WeightSnapshot where
  timestamp : Int
  weights : List (String × List ℚ)
  metrics : Option WUMetrics
  deriving DecidableEq

/-- The UpdateConfig record. -/
structure UpdateConfig where
  updateInterval : Nat
  snapshotInterval : Nat
  maxSnapshots : Nat
  rollbackThreshold : ℚ
  deriving DecidableEq

/-- State of the WeightUpdater class. -/
structure WeightUpdater where
  currentWeights : List (String × List ℚ)
  snapshots : List WeightSnapshot
  config : UpdateConfig
  updateCount : Nat
  lastMetrics : Option WUMetrics
  deriving DecidableEq

/-- Lookup of a named weight buffer (Map.get). -/
def wlookup (name : String) (ws : List (String × List ℚ)) : Option (List ℚ) :=
  (ws.find? (fun p => p.1 = name)).map Prod.snd

/-- In-place overwrite of a named weight buffer. -/
def wset (name : String) (v : List ℚ) (ws : List (String × List ℚ)) :
    List (String × List ℚ) :=
  ws.map (fun p => if p.1 = name then (name, v) else p)

/-- TypedArray.set: overwrite the front of dst with src, keeping the length
of dst.  (JS throws when src is longer than dst; no theorem exercises that.) -/
def tarrSet (dst src : List ℚ) : List ℚ :=
  src.take dst.length ++ dst.drop src.length

namespace WeightUpdater

/-- createSnapshot: push a deep copy of the current weights with the given
metrics, record the metrics as lastMetrics, and shift the oldest snapshot
when the bound maxSnapshots is exceeded. -/
def createSnapshot (now : Int) (metrics : Option WUMetrics) (s : WeightUpdater) :
    WeightUpdater :=
  let snaps := s.snapshots ++ [⟨now, s.currentWeights, metrics⟩]
  { s with
    snapshots := if s.config.maxSnapshots < snaps.length then snaps.tail else snaps,
    lastMetrics := metrics }

/-- The constructor: store the initial weights and take an initial snapshot. -/
def init (initialWeights : List (String × List ℚ)) (config : UpdateConfig)
    (now : Int) : WeightUpdater :=
  createSnapshot now none ⟨initialWeights, [], config, 0, none⟩

/-- applyUpdate: w = w + alpha * delta in place for a known name (warn and
return otherwise), count the update, and auto-snapshot every
snapshotInterval-th update. -/
def applyUpdate (now : Int) (name : String) (delta : List ℚ) (alpha : ℚ)
    (s : WeightUpdater) : WeightUpdater :=
  match wlookup name s.currentWeights with
  | none => s
  | some w =>
    let w2 := (List.range w.length).map (fun i => w.getD i 0 + alpha * delta.getD i 0)
    let s1 := { s with
      currentWeights := wset name w2 s.currentWeights,
      updateCount := s.updateCount + 1 }
    if s1.updateCount % s.config.snapshotInterval = 0 then createSnapshot now none s1
    else s1

/-- replaceWeight: overwrite a known named buffer in place. -/
def replaceWeight (name : String) (newWeight : List ℚ) (s : WeightUpdater) :
    WeightUpdater :=
  match wlookup name s.currentWeights with
  | none => s
  | some w =>
    { s with
      currentWeights := wset name (tarrSet w newWeight) s.currentWeights,
      updateCount := s.updateCount + 1 }

/-- rollback: false when no snapshot exists or the index is out of range;
otherwise restore every snapshotted buffer into the live store (names no
longer present are skipped) and adopt the snapshot metrics.  A missing index
argument selects the most recent snapshot. -/
def rollback (idx : Option Int) (s : WeightUpdater) : Bool × WeightUpdater :=
  if s.snapshots.length = 0 then (false, s)
  else
    let targetIndex : Int := idx.getD ((s.snapshots.length : Int) - 1)
    if targetIndex < 0 ∨ (s.snapshots.length : Int) ≤ targetIndex then (false, s)
    else
      let snap := s.snapshots.getD targetIndex.toNat ⟨0, [], none⟩
      (true,
       { s with
         currentWeights := s.currentWeights.map (fun p =>
           match wlookup p.1 snap.weights with
           | none => p
           | some v => (p.1, tarrSet p.2 v)),
         lastMetrics := snap.metrics })

/-- clearOldSnapshots: keep only the most recent snapshot. -/
def clearOldSnapshots (s : WeightUpdater) : WeightUpdater :=
  if 1 < s.snapshots.length then
    { s with snapshots := s.snapshots.drop (s.snapshots.length - 1) }
  else s

/-- importWeights: overwrite known names in place, append unknown names,
then take a fresh snapshot. -/
def importWeights (now : Int) (ws : List (String × List ℚ)) (s : WeightUpdater) :
    WeightUpdater :=
  let cw := ws.foldl (fun acc p =>
    match wlookup p.1 acc with
    | some w => wset p.1 (tarrSet w p.2) acc
    | none => acc ++ [p]) s.currentWeights
  createSnapshot now none { s with currentWeights := cw }

/-- updateConfig, modelled as full replacement of the config record. -/
def updateConfig (cfg : UpdateConfig) (s : WeightUpdater) : WeightUpdater :=
  { s with config := cfg }

end WeightUpdater

/-- The public mutating operations of the WeightUpdater class. -/
inductive WUOp where
  | applyUpdate (now : Int) (name : String) (delta : List ℚ) (alpha : ℚ)
  | replaceWeight (name : String) (w : List ℚ)
  | createSnapshot (now : Int) (metrics : Option WUMetrics)
  | rollback (idx : Option Int)
  | clearOldSnapshots
  | importWeights (now : Int) (ws : List (String × List ℚ))
  | updateConfig (cfg : UpdateConfig)

/-- Interpretation of one operation. -/
def applyWUOp (op : WUOp) (s : WeightUpdater) : WeightUpdater :=
  match op with
  | .applyUpdate now name delta alpha => WeightUpdater.applyUpdate now name delta alpha s
  | .replaceWeight name w => WeightUpdater.replaceWeight name w s
  | .createSnapshot now m => WeightUpdater.createSnapshot now m s
  | .rollback idx => (WeightUpdater.rollback idx s).2
  | .clearOldSnapshots => WeightUpdater.clearOldSnapshots s
  | .importWeights now ws => WeightUpdater.importWeights now ws s
  | .updateConfig cfg => WeightUpdater.updateConfig cfg s

/-- Interpretation of an operation sequence. -/
def applyWUOps (ops : List WUOp) (s : WeightUpdater) : WeightUpdater :=
  ops.foldl (fun t op => applyWUOp op t) s

/-- The weight-mutating operations considered by claim C5. -/
inductive WMutOp where
  | applyUpdate (now : Int) (name : String) (delta : List ℚ) (alpha : ℚ)
  | replaceWeight (name : String) (w : List ℚ)

/-- Interpretation of one mutating operation. -/
def applyWMutOp (op : WMutOp) (s : WeightUpdater) : WeightUpdater :=
  match op with
  | .applyUpdate now name delta alpha => WeightUpdater.applyUpdate now name delta alpha s
  | .replaceWeight name w => WeightUpdater.replaceWeight name w s

/-- Interpretation of a mutating-operation sequence. -/
def applyWMutOps (ops : List WMutOp) (s : WeightUpdater) : WeightUpdater :=
  ops.foldl (fun t op => applyWMutOp op t) s

/-! ### Helper lemmas about the weight store -/

theorem tarrSet_length (dst src : List ℚ) : (tarrSet dst src).length = dst.length := by
  simp only [tarrSet, List.length_append, List.length_take, List.length_drop]
  omega

theorem tarrSet_eq_of_length (dst src : List ℚ) (h : src.length = dst.length) :
    tarrSet dst src = src := by
  simp [tarrSet, h, List.take_of_length_le, List.drop_eq_nil_of_le, h.ge]

theorem wlookup_wset_eq (name : String) (v : List ℚ) (ws : List (String × List ℚ))
    (w0 : List ℚ) (h : wlookup name ws = some w0) :
    wlookup name (wset name v ws) = some v := by
  induction ws with
  | nil => simp [wlookup] at h
  | cons p t ih =>
    by_cases hp : p.1 = name
    · simp [wlookup, wset, List.find?, hp]
    · simp only [wlookup, wset, List.map_cons, if_neg hp] at h ⊢
      rw [List.find?_cons_of_neg _ (by simpa using hp)] at h
      rw [List.find?_cons_of_neg _ (by simpa using hp)]
      exact ih h

theorem wlookup_wset_ne (name nm2 : String) (v : List ℚ) (ws : List (String × List ℚ))
    (h : nm2 ≠ name) : wlookup nm2 (wset name v ws) = wlookup nm2 ws := by
  induction ws with
  | nil => simp [wlookup, wset]
  | cons p t ih =>
    by_cases hp : p.1 = name
    · subst hp
      simp only [wlookup, wset, List.map_cons, if_pos rfl]
      rw [List.find?_cons_of_neg _ (by simpa using Ne.symm h),
        List.find?_cons_of_neg _ (by simpa using Ne.symm h)]
      exact ih
    · simp only [wlookup, wset, List.map_cons, if_neg hp]
      by_cases hq : p.1 = nm2
      · rw [List.find?_cons_of_pos _ (by simpa using hq),
          List.find?_cons_of_pos _ (by simpa using hq)]
      · rw [List.find?_cons_of_neg _ (by simpa using hq),
          List.find?_cons_of_neg _ (by simpa using hq)]
        exact ih

/-- Lookup through a key-preserving map over the store. -/
theorem wlookup_map (g : String × List ℚ → List ℚ) (ws : List (String × List ℚ))
    (name : String) :
    wlookup name (ws.map (fun p => (p.1, g p))) =
      (ws.find? (fun p => p.1 = name)).map g := by
  simp only [wlookup, List.find?_map]
  have hpred : ((fun p : String × List ℚ => decide (p.1 = name)) ∘
      (fun p : String × List ℚ => (p.1, g p))) =
      (fun p : String × List ℚ => decide (p.1 = name)) := by
    funext p
    rfl
  rw [hpred, Option.map_map]
  rfl

/-! ### Snapshot-list facts -/

theorem WeightUpdater.currentWeights_createSnapshot (now : Int) (m : Option WUMetrics)
    (s : WeightUpdater) : (WeightUpdater.createSnapshot now m s).currentWeights =
      s.currentWeights := rfl

theorem WeightUpdater.snapshots_createSnapshot_len (now : Int) (m : Option WUMetrics)
    (s : WeightUpdater)
    (h : 1 ≤ s.config.maxSnapshots ∨ 1 ≤ s.snapshots.length) :
    1 ≤ (WeightUpdater.createSnapshot now m s).snapshots.length := by
  simp only [WeightUpdater.createSnapshot]
  split
  · rename_i hc
    simp only [List.length_tail, List.length_append, List.length_cons] at hc ⊢
    omega
  · simp

theorem WeightUpdater.getLast_createSnapshot (now : Int) (m : Option WUMetrics)
    (s : WeightUpdater) (h : 1 ≤ s.config.maxSnapshots) :
    (WeightUpdater.createSnapshot now m s).snapshots.getLast? =
      some ⟨now, s.currentWeights, m⟩ := by
  simp only [WeightUpdater.createSnapshot]
  split
  · rename_i hc
    cases hs : s.snapshots with
    | nil =>
      rw [hs] at hc
      simp only [List.nil_append, List.length_cons, List.length_nil] at hc
      exact absurd hc (by omega)
    | cons a t =>
      simp only [List.cons_append, List.tail_cons]
      exact List.getLast?_concat _
  · exact List.getLast?_concat _

theorem WeightUpdater.rollback_none_true (s : WeightUpdater)
    (h : 1 ≤ s.snapshots.length) : (WeightUpdater.rollback none s).1 = true := by
  simp only [WeightUpdater.rollback]
  split
  · rename_i hc
    omega
  · split
    · rename_i hc
      simp only [Option.getD_none] at hc
      rcases hc with hc | hc <;> omega
    · rfl

/-- Every public operation keeps at least one snapshot around. -/
theorem applyWUOp_snaps_nonempty (op : WUOp) (s : WeightUpdater)
    (h : 1 ≤ s.snapshots.length) : 1 ≤ (applyWUOp op s).snapshots.length := by
  cases op with
  | applyUpdate now name delta alpha =>
    simp only [applyWUOp, WeightUpdater.applyUpdate]
    split
    · exact h
    · split
      · exact WeightUpdater.snapshots_createSnapshot_len _ _ _ (Or.inr h)
      · exact h
  | replaceWeight name w =>
    simp only [applyWUOp, WeightUpdater.replaceWeight]
    split
    · exact h
    · exact h
  | createSnapshot now m =>
    exact WeightUpdater.snapshots_createSnapshot_len _ _ _ (Or.inr h)
  | rollback idx =>
    simp only [applyWUOp, WeightUpdater.rollback]
    split
    · exact h
    · split
      · exact h
      · exact h
  | clearOldSnapshots =>
    simp only [applyWUOp, WeightUpdater.clearOldSnapshots]
    split
    · simp only [List.length_drop]
      omega
    · exact h
  | importWeights now ws =>
    exact WeightUpdater.snapshots_createSnapshot_len _ _ _ (Or.inr h)
  | updateConfig cfg => exact h

theorem applyWUOps_snaps_nonempty (ops : List WUOp) :
    ∀ s : WeightUpdater, 1 ≤ s.snapshots.length →
      1 ≤ (applyWUOps ops s).snapshots.length := by
  induction ops with
  | nil => intro s h; exact h
  | cons op rest ih =>
    intro s h
    exact ih (applyWUOp op s) (applyWUOp_snaps_nonempty op s h)

/-- C10: constructed with maxSnapshots at least 1, the snapshot list stays
non-empty under every operation sequence, and rollback with no index always
succeeds. -/
theorem claim10_snapshots_never_empty (w : List (String × List ℚ))
    (cfg : UpdateConfig) (now : Int) (ops : List WUOp)
    (h : 1 ≤ cfg.maxSnapshots) :
    1 ≤ (applyWUOps ops (WeightUpdater.init w cfg now)).snapshots.length ∧
    (WeightUpdater.rollback none (applyWUOps ops (WeightUpdater.init w cfg now))).1 =
      true := by
  have hinit : 1 ≤ (WeightUpdater.init w cfg now).snapshots.length :=
    WeightUpdater.snapshots_createSnapshot_len _ _ _ (Or.inl h)
  have hmain := applyWUOps_snaps_nonempty ops _ hinit
  exact ⟨hmain, WeightUpdater.rollback_none_true _ hmain⟩

/-! ### Length tracking for claim C5 -/

/-- The length of a named live buffer, when present. -/
def wlen (s : WeightUpdater) (name : String) : Option Nat :=
  (wlookup name s.currentWeights).map List.length

theorem wlen_wset (nm : String) (v w0 : List ℚ) (ws : List (String × List ℚ))
    (hw : wlookup nm ws = some w0) (hlen : v.length = w0.length) (name : String) :
    (wlookup name (wset nm v ws)).map List.length =
      (wlookup name ws).map List.length := by
  by_cases hn : name = nm
  · subst hn
    rw [wlookup_wset_eq name v ws w0 hw, hw]
    simp [hlen]
  · rw [wlookup_wset_ne nm name v ws hn]

theorem wlen_applyWMutOp (op : WMutOp) (s : WeightUpdater) (name : String) :
    wlen (applyWMutOp op s) name = wlen s name := by
  cases op with
  | applyUpdate now nm delta alpha =>
    simp only [applyWMutOp, WeightUpdater.applyUpdate]
    split
    · rfl
    · rename_i w hw
      have hcore : (wlookup name (wset nm
          ((List.range w.length).map (fun i => w.getD i 0 + alpha * delta.getD i 0))
          s.currentWeights)).map List.length =
          (wlookup name s.currentWeights).map List.length :=
        wlen_wset nm _ w s.currentWeights hw (by simp) name
      split
      · exact hcore
      · exact hcore
  | replaceWeight nm v =>
    simp only [applyWMutOp, WeightUpdater.replaceWeight]
    split
    · rfl
    · rename_i w hw
      exact wlen_wset nm (tarrSet w v) w s.currentWeights hw (tarrSet_length w v) name

theorem wlen_applyWMutOps (ops : List WMutOp) :
    ∀ (s : WeightUpdater) (name : String), wlen (applyWMutOps ops s) name = wlen s name := by
  induction ops with
  | nil => intro s name; rfl
  | cons op rest ih =>
    intro s name
    exact (ih (applyWMutOp op s) name).trans (wlen_applyWMutOp op s name)

/-- C5, amended: after an explicit createSnapshot, a sequence of
applyUpdate/replaceWeight mutations that does not itself add a snapshot
(applyUpdate auto-snapshots whenever the cumulative update count reaches a
multiple of snapshotInterval), followed by rollback with no index, restores
every weight to its snapshotted value, given maxSnapshots at least 1. -/
theorem claim5_rollback_restores (s : WeightUpdater) (now : Int) (ops : List WMutOp)
    (hmax : 1 ≤ s.config.maxSnapshots)
    (hsnap : (applyWMutOps ops (WeightUpdater.createSnapshot now none s)).snapshots =
      (WeightUpdater.createSnapshot now none s).snapshots)
    (name : String) (w : List ℚ) (hw : wlookup name s.currentWeights = some w) :
    wlookup name (WeightUpdater.rollback none
      (applyWMutOps ops (WeightUpdater.createSnapshot now none s))).2.currentWeights =
      some w := by
  set s1 := WeightUpdater.createSnapshot now none s with hs1
  set s2 := applyWMutOps ops s1 with hs2
  have hlast : s2.snapshots.getLast? = some ⟨now, s.currentWeights, none⟩ := by
    rw [hsnap]
    exact WeightUpdater.getLast_createSnapshot now none s hmax
  have hne : s2.snapshots.length ≠ 0 := by
    intro h0
    rw [List.length_eq_zero] at h0
    rw [h0] at hlast
    simp at hlast
  obtain ⟨w2, hw2, hlen2⟩ : ∃ w2, wlookup name s2.currentWeights = some w2 ∧
      w2.length = w.length := by
    have hpres := wlen_applyWMutOps ops s1 name
    have h1 : wlen s1 name = some w.length := by
      show (wlookup name s1.currentWeights).map List.length = some w.length
      rw [hs1, WeightUpdater.currentWeights_createSnapshot, hw]
      rfl
    rw [h1] at hpres
    cases hcc : wlookup name s2.currentWeights with
    | none =>
      rw [show wlen s2 name = (wlookup name s2.currentWeights).map List.length from rfl,
        hcc] at hpres
      simp at hpres
    | some w2 =>
      refine ⟨w2, rfl, ?_⟩
      rw [show wlen s2 name = (wlookup name s2.currentWeights).map List.length from rfl,
        hcc] at hpres
      simpa using hpres
  simp only [WeightUpdater.rollback]
  split
  · rename_i h0
    exact absurd h0 hne
  · split
    · rename_i hcond
      simp only [Option.getD_none] at hcond
      have hone : 1 ≤ s2.snapshots.length := Nat.one_le_iff_ne_zero.mpr hne
      rcases hcond with hc | hc <;> omega
    · have hsnapeq : s2.snapshots.getD
          (((none : Option Int).getD ((s2.snapshots.length : Int) - 1)).toNat) ⟨0, [], none⟩ =
          (⟨now, s.currentWeights, none⟩ : WeightSnapshot) := by
        simp only [Option.getD_none]
        rw [List.getD_eq_getElem?_getD]
        have htn : ((s2.snapshots.length : Int) - 1).toNat = s2.snapshots.length - 1 := by
          omega
        rw [htn, ← List.getLast?_eq_getElem?, hlast]
        rfl
      rw [hsnapeq]
      have hfun : (fun p : String × List ℚ =>
          match wlookup p.1 s.currentWeights with
          | none => p
          | some v => (p.1, tarrSet p.2 v)) =
          (fun p : String × List ℚ => (p.1,
            match wlookup p.1 s.currentWeights with
            | none => p.2
            | some v => tarrSet p.2 v)) := by
        funext p
        cases wlookup p.1 s.currentWeights <;> rfl
      rw [hfun, wlookup_map]
      obtain ⟨pstar, hfind, hp2⟩ : ∃ pst,
          s2.currentWeights.find? (fun p => decide (p.1 = name)) = some pst ∧
          pst.2 = w2 := by
        cases hf : s2.currentWeights.find? (fun p => decide (p.1 = name)) with
        | none =>
          rw [wlookup, hf] at hw2
          simp at hw2
        | some pst =>
          refine ⟨pst, rfl, ?_⟩
          rw [wlookup, hf] at hw2
          simpa using hw2
      have hp1 : pstar.1 = name := by simpa using List.find?_some hfind
      rw [hfind]
      simp only [Option.map_some', hp1, hw]
      rw [hp2, tarrSet_eq_of_length w2 w hlen2.symm]

/-- Concrete WeightUpdater of Scenario D with the default configuration. -/
def wuScenarioD : WeightUpdater :=
  WeightUpdater.init [("w", [1, 2, 3])] ⟨1000, 10, 5, 1/5⟩ 0

/-- Concrete WeightUpdater with snapshotInterval one, so the very first
applyUpdate auto-snapshots the mutated weights. -/
def wuCexD : WeightUpdater :=
  WeightUpdater.init [("w", [1, 2, 3])] ⟨1000, 1, 5, 1/5⟩ 0

/-- C5, counterexample: with snapshotInterval one, createSnapshot followed by
applyUpdate (which auto-snapshots the already mutated buffer) followed by
rollback leaves the weight at the mutated value, not the snapshotted one. -/
theorem claim5_counterexample :
    wlookup "w" (WeightUpdater.applyUpdate 0 "w" [1, 1, 1] 1
      (WeightUpdater.createSnapshot 0 none wuCexD)).currentWeights = some [2, 3, 4] ∧
    wlookup "w" (WeightUpdater.rollback none (WeightUpdater.applyUpdate 0 "w" [1, 1, 1] 1
      (WeightUpdater.createSnapshot 0 none wuCexD))).2.currentWeights = some [2, 3, 4] ∧
    wlookup "w" (WeightUpdater.rollback none (WeightUpdater.applyUpdate 0 "w" [1, 1, 1] 1
      (WeightUpdater.createSnapshot 0 none wuCexD))).2.currentWeights ≠
      some [1, 2, 3] := by
  norm_num [wuCexD, WeightUpdater.init, WeightUpdater.createSnapshot,
    WeightUpdater.applyUpdate, WeightUpdater.rollback, wlookup, wset, tarrSet,
    List.find?, List.range_succ]

/-- C5, witness: Scenario D with the default configuration, where no
auto-snapshot fires, restores the snapshotted weights exactly. -/
theorem claim5_witness :
    1 ≤ wuScenarioD.config.maxSnapshots ∧
    ((applyWMutOps [WMutOp.applyUpdate 0 "w" [1, 1, 1] 1]
        (WeightUpdater.createSnapshot 0 none wuScenarioD)).snapshots =
      (WeightUpdater.createSnapshot 0 none wuScenarioD).snapshots ∧
    wlookup "w" wuScenarioD.currentWeights = some [1, 2, 3] ∧
    wlookup "w" (WeightUpdater.rollback none
      (applyWMutOps [WMutOp.applyUpdate 0 "w" [1, 1, 1] 1]
        (WeightUpdater.createSnapshot 0 none wuScenarioD))).2.currentWeights =
      some [1, 2, 3]) :=
  ⟨by decide, by decide, by decide,
   claim5_rollback_restores wuScenarioD 0 _ (by decide) (by decide) "w" [1, 2, 3]
     (by decide)⟩

/-- C10, witness at a concrete store, config and operation list. -/
theorem claim10_witness :
    1 ≤ (⟨1000, 10, 5, 1/5⟩ : UpdateConfig).maxSnapshots ∧
    (1 ≤ (applyWUOps [WUOp.clearOldSnapshots]
        (WeightUpdater.init [("w", [1, 2, 3])] ⟨1000, 10, 5, 1/5⟩ 0)).snapshots.length ∧
      (WeightUpdater.rollback none (applyWUOps [WUOp.clearOldSnapshots]
        (WeightUpdater.init [("w", [1, 2, 3])] ⟨1000, 10, 5, 1/5⟩ 0))).1 = true) :=
  ⟨by decide, claim10_snapshots_never_empty _ _ _ _ (by decide)⟩

/-!
The remaining components call transcendental functions (sqrt, exp, cos, log),
so their buffers are modelled over the reals and the definitions below are
noncomputable; concrete evaluations in the theorems go through simp lemmas.
-/

noncomputable section

/-! ## LoRA adapter (src/lib/finetuning/lora.ts)

Float32Array buffers become lists of reals; the random initial entries of A
are supplied through an explicit draw function standing for Math.random. -/

/-- The LoRAConfig record. -/
structure LoRAConfig where
  rank : Nat
  alpha : ℝ
  dropout : ℝ
  targetModules : List String
  enableBias : Bool

/-- A LoRALayer: flattened row-major matrices A (rank x inFeatures) and
B (outFeatures x rank), optional gradient and Adam moment buffers, and the
shape and scaling data. -/
structure LoRALayer where
  A : List ℝ
  B : List ℝ
  gradA : Option (List ℝ)
  gradB : Option (List ℝ)
  mA : Option (List ℝ)
  vA : Option (List ℝ)
  mB : Option (List ℝ)
  vB : Option (List ℝ)
  inFeatures : Nat
  outFeatures : Nat
  rank : Nat
  alpha : ℝ
  scaling : ℝ

/-- State of the LoRAAdapter class: config plus the module-name keyed layer
map. -/
structure LoRAAdapter where
  config : LoRAConfig
  layers : List (String × LoRALayer)

/-- Layer lookup (Map.get). -/
def llookup (name : String) (ls : List (String × LoRALayer)) : Option LoRALayer :=
  (ls.find? (fun p => p.1 = name)).map Prod.snd

/-- Layer store (Map.set): replace when present, append otherwise. -/
def lset (name : String) (v : LoRALayer) (ls : List (String × LoRALayer)) :
    List (String × LoRALayer) :=
  match ls.find? (fun p => p.1 = name) with
  | some _ => ls.map (fun p => if p.1 = name then (name, v) else p)
  | none => ls ++ [(name, v)]

namespace LoRAAdapter

/-- initializeLayer: A filled with small random draws, B all zeros, scaling
equal to alpha divided by rank. -/
def initializeLayer (name : String) (inF outF : Nat) (adraw : Nat → ℝ)
    (ad : LoRAAdapter) : LoRAAdapter :=
  let A := (List.range (ad.config.rank * inF)).map (fun i => (adraw i - 0.5) * 0.01)
  let B := List.replicate (outF * ad.config.rank) (0 : ℝ)
  { ad with
    layers := lset name
      ⟨A, B, none, none, none, none, none, none, inF, outF, ad.config.rank,
        ad.config.alpha, ad.config.alpha / (ad.config.rank : ℝ)⟩ ad.layers }

end LoRAAdapter

/-- The intermediate array Ax of forward and backward. -/
def loraAx (L : LoRALayer) (x : List ℝ) : List ℝ :=
  (List.range L.rank).map (fun i =>
    ((List.range L.inFeatures).map (fun j =>
      L.A.getD (i * L.inFeatures + j) 0 * x.getD j 0)).sum)

/-- The intermediate array BAx of forward, already multiplied by scaling. -/
def loraBAx (L : LoRALayer) (Ax : List ℝ) : List ℝ :=
  (List.range L.outFeatures).map (fun i =>
    (((List.range L.rank).map (fun j =>
      L.B.getD (i * L.rank + j) 0 * Ax.getD j 0)).sum) * L.scaling)

namespace LoRAAdapter

/-- forward: return the base output unchanged for an unregistered module,
otherwise base output plus scaling times B (A x). -/
def forward (name : String) (x baseOutput : List ℝ) (ad : LoRAAdapter) : List ℝ :=
  match llookup name ad.layers with
  | none => baseOutput
  | some L =>
    let Ax := loraAx L x
    let BAx := loraBAx L Ax
    (List.range L.outFeatures).map (fun i => baseOutput.getD i 0 + BAx.getD i 0)

/-- backward: accumulate scaled outer products into lazily allocated
gradient buffers (the source allocates both buffers when gradA is absent). -/
def backward (name : String) (x gradOutput : List ℝ) (ad : LoRAAdapter) :
    LoRAAdapter :=
  match llookup name ad.layers with
  | none => ad
  | some L =>
    let gA0 := match L.gradA, L.gradB with
      | some a, _ => a
      | none, _ => List.replicate (L.rank * L.inFeatures) (0 : ℝ)
    let gB0 := match L.gradA, L.gradB with
      | some _, some b => b
      | _, _ => List.replicate (L.outFeatures * L.rank) (0 : ℝ)
    let Ax := loraAx L x
    let gB1 := (List.range (L.outFeatures * L.rank)).map (fun k =>
      gB0.getD k 0 + gradOutput.getD (k / L.rank) 0 * Ax.getD (k % L.rank) 0 * L.scaling)
    let BTgrad := (List.range L.rank).map (fun i =>
      (((List.range L.outFeatures).map (fun j =>
        L.B.getD (j * L.rank + i) 0 * gradOutput.getD j 0)).sum) * L.scaling)
    let gA1 := (List.range (L.rank * L.inFeatures)).map (fun k =>
      gA0.getD k 0 + BTgrad.getD (k / L.inFeatures) 0 * x.getD (k % L.inFeatures) 0)
    { ad with layers := lset name { L with gradA := some gA1, gradB := some gB1 } ad.layers }

/-- zeroGrad: fill allocated gradient buffers with zeros. -/
def zeroGrad (ad : LoRAAdapter) : LoRAAdapter :=
  { ad with layers := ad.layers.map (fun p => (p.1,
    { p.2 with
      gradA := p.2.gradA.map (fun g => List.replicate g.length (0 : ℝ)),
      gradB := p.2.gradB.map (fun g => List.replicate g.length (0 : ℝ)) })) }

end LoRAAdapter

/-- One Adam update of a flat parameter buffer, returning the new parameter,
first-moment and second-moment buffers. -/
def adamUpdateVec (param grad m v : List ℝ) (lr beta1 beta2 eps bc1 bc2 : ℝ) :
    List ℝ × List ℝ × List ℝ :=
  let m1 := (List.range param.length).map (fun i =>
    beta1 * m.getD i 0 + (1 - beta1) * grad.getD i 0)
  let v1 := (List.range param.length).map (fun i =>
    beta2 * v.getD i 0 + (1 - beta2) * grad.getD i 0 * grad.getD i 0)
  let p1 := (List.range param.length).map (fun i =>
    param.getD i 0 - lr * (m1.getD i 0 / bc1) / (Real.sqrt (v1.getD i 0 / bc2) + eps))
  (p1, m1, v1)

namespace LoRAAdapter

/-- updateParameters: per layer with allocated gradients, run Adam with
bias-corrected moments over A and B, then zero the gradients. -/
def updateParameters (lr beta1 beta2 eps : ℝ) (step : Nat) (ad : LoRAAdapter) :
    LoRAAdapter :=
  { ad with layers := ad.layers.map (fun p =>
    match p.2.gradA, p.2.gradB with
    | some gA, some gB =>
      let L := p.2
      let mA0 := L.mA.getD (List.replicate L.A.length (0 : ℝ))
      let vA0 := L.vA.getD (List.replicate L.A.length (0 : ℝ))
      let mB0 := L.mB.getD (List.replicate L.B.length (0 : ℝ))
      let vB0 := L.vB.getD (List.replicate L.B.length (0 : ℝ))
      let bc1 := 1 - beta1 ^ step
      let bc2 := 1 - beta2 ^ step
      let rA := adamUpdateVec L.A gA mA0 vA0 lr beta1 beta2 eps bc1 bc2
      let rB := adamUpdateVec L.B gB mB0 vB0 lr beta1 beta2 eps bc1 bc2
      (p.1, { L with
        A := rA.1, mA := some rA.2.1, vA := some rA.2.2,
        B := rB.1, mB := some rB.2.1, vB := some rB.2.2,
        gradA := some (List.replicate gA.length (0 : ℝ)),
        gradB := some (List.replicate gB.length (0 : ℝ)) })
    | _, _ => p) }

end LoRAAdapter

/-! ## Theorems for claim C3 -/

theorem llookup_cons_eq (v : LoRALayer) (t : List (String × LoRALayer)) (name : String) :
    llookup name ((name, v) :: t) = some v := by
  simp [llookup, List.find?]

theorem llookup_cons_ne (p : String × LoRALayer) (t : List (String × LoRALayer))
    (name : String) (hp : ¬p.1 = name) : llookup name (p :: t) = llookup name t := by
  simp only [llookup]
  rw [List.find?_cons_of_neg _ (by simpa using hp)]

theorem llookup_lset_self (name : String) (v : LoRALayer)
    (ls : List (String × LoRALayer)) : llookup name (lset name v ls) = some v := by
  induction ls with
  | nil => simp [llookup, lset, List.find?]
  | cons p t ih =>
    by_cases hp : p.1 = name
    · have hf : List.find? (fun q => decide (q.1 = name)) (p :: t) = some p :=
        List.find?_cons_of_pos _ (by simpa using hp)
      simp only [lset, hf, List.map_cons, if_pos hp]
      exact llookup_cons_eq v _ name
    · have hskip : List.find? (fun q => decide (q.1 = name)) (p :: t) =
          List.find? (fun q => decide (q.1 = name)) t :=
        List.find?_cons_of_neg _ (by simpa using hp)
      cases hft : List.find? (fun q => decide (q.1 = name)) t with
      | some q =>
        have ih2 := ih
        simp only [lset, hft] at ih2
        simp only [lset, hskip, hft, List.map_cons, if_neg hp]
        rw [llookup_cons_ne p _ name hp]
        exact ih2
      | none =>
        have ih2 := ih
        simp only [lset, hft] at ih2
        simp only [lset, hskip, hft, List.cons_append]
        rw [llookup_cons_ne p _ name hp]
        exact ih2

theorem getD_replicate_zero (n i : Nat) : (List.replicate n (0 : ℝ)).getD i 0 = 0 := by
  rw [List.getD_eq_getElem?_getD, List.getElem?_replicate]
  split <;> rfl

theorem map_getD_range (l : List ℝ) :
    (List.range l.length).map (fun i => l.getD i 0) = l := by
  apply List.ext_getElem
  · simp
  · intro i h1 h2
    simp [List.getD_eq_getElem?_getD, List.getElem?_eq_getElem h2]

/-- With an all-zero B matrix the scaled product BAx is the zero vector. -/
theorem loraBAx_zero (L : LoRALayer) (hB : ∀ k, L.B.getD k 0 = 0) (Ax : List ℝ) :
    loraBAx L Ax = List.replicate L.outFeatures 0 := by
  unfold loraBAx
  have h1 : ∀ i ∈ List.range L.outFeatures,
      (((List.range L.rank).map (fun j =>
        L.B.getD (i * L.rank + j) 0 * Ax.getD j 0)).sum) * L.scaling = (0 : ℝ) := by
    intro i _
    have h2 : (List.range L.rank).map (fun j =>
        L.B.getD (i * L.rank + j) 0 * Ax.getD j 0) =
        (List.range L.rank).map (fun _ => (0 : ℝ)) :=
      List.map_congr_left (fun j _ => by rw [hB, zero_mul])
    rw [h2]
    simp
  rw [List.map_congr_left h1]
  simp

/-- forward is the identity on the base output whenever the registered layer
carries an all-zero B matrix. -/
theorem forward_of_zero_B (ad : LoRAAdapter) (name : String) (L : LoRALayer)
    (hfind : llookup name ad.layers = some L)
    (hB : ∀ k, L.B.getD k 0 = 0) (x baseOutput : List ℝ)
    (hb : baseOutput.length = L.outFeatures) :
    LoRAAdapter.forward name x baseOutput ad = baseOutput := by
  simp only [LoRAAdapter.forward]
  split
  · rename_i hnone
    rw [hfind] at hnone
  · rename_i L2 hL2
    rw [hfind] at hL2
    obtain rfl : L = L2 := Option.some.inj hL2
    rw [loraBAx_zero L hB]
    simp only [getD_replicate_zero, add_zero]
    rw [← hb]
    exact map_getD_range baseOutput

/-- C3: immediately after initializeLayer, forward returns the base output
exactly, because B is initialized to all zeros. -/
theorem claim3_forward_noop_at_init (ad : LoRAAdapter) (name : String)
    (inF outF : Nat) (adraw : Nat → ℝ) (x baseOutput : List ℝ)
    (_hx : x.length = inF) (hb : baseOutput.length = outF) :
    LoRAAdapter.forward name x baseOutput
      (LoRAAdapter.initializeLayer name inF outF adraw ad) = baseOutput :=
  forward_of_zero_B _ name _ (llookup_lset_self name _ ad.layers)
    (fun _ => getD_replicate_zero _ _) x baseOutput hb

/-- A fresh adapter with rank two and alpha four, for Scenario B. -/
def loraAdapterW : LoRAAdapter := ⟨⟨2, 4, 0, ["m"], false⟩, []⟩

/-- C3, witness: Scenario B with concrete draws for A. -/
theorem claim3_witness :
    ([1, 1, 1, 1] : List ℝ).length = 4 ∧ ([5, 5] : List ℝ).length = 2 ∧
    LoRAAdapter.forward "m" [1, 1, 1, 1] [5, 5]
      (LoRAAdapter.initializeLayer "m" 4 2 (fun i => (i : ℝ)) loraAdapterW) = [5, 5] :=
  ⟨rfl, rfl,
   claim3_forward_noop_at_init loraAdapterW "m" 4 2 (fun i => (i : ℝ)) [1, 1, 1, 1]
     [5, 5] rfl rfl⟩

/-! ## Simulated spiking network (SimulatedNeuralNetwork in the source)

Math.random draws are passed in explicitly: pdraw for initial potentials,
conn and wdraw for the random sparse connectivity.  lastSpikeTime uses an
Option, none standing for the initial minus infinity. -/

/-- The NeuronConfig record. -/
structure NeuronConfig where
  numNeurons : Nat
  threshold : ℝ
  refractoryPeriod : Nat
  leakRate : ℝ
  synapticStrength : ℝ
  plasticityRate : ℝ
  enableSTDP : Bool

/-- A neuron: id, membrane potential, last spike time, refractory flag,
directed connection map (target id to weight) and bounded spike history. -/
structure Neuron where
  id : Nat
  potential : ℝ
  lastSpikeTime : Option Int
  isRefractory : Bool
  connections : List (Nat × ℝ)
  spikeHistory : List Int

def defaultNeuron : Neuron := ⟨0, 0, none, false, [], []⟩

/-- State of the SimulatedNeuralNetwork class. -/
structure SNN where
  neurons : List Neuron
  config : NeuronConfig
  timeStep : Int
  globalActivity : ℝ

/-- Initial connection weight: (Math.random() - 0.5) * synapticStrength. -/
def initWeight (r s : ℝ) : ℝ := (r - 0.5) * s

/-- initializeNeurons plus the constructor, with the random draws explicit. -/
def initSNN (cfg : NeuronConfig) (pdraw : Nat → ℝ) (conn : Nat → Nat → Bool)
    (wdraw : Nat → Nat → ℝ) : SNN :=
  { neurons := (List.range cfg.numNeurons).map (fun i =>
      { id := i, potential := pdraw i * 0.1 - 0.05, lastSpikeTime := none,
        isRefractory := false,
        connections := ((List.range cfg.numNeurons).filter (fun j =>
          decide (i ≠ j) && conn i j)).map (fun j =>
            (j, initWeight (wdraw i j) cfg.synapticStrength)),
        spikeHistory := [] }),
    config := cfg, timeStep := 0, globalActivity := 0 }

/-- Refractory test: within refractoryPeriod steps of the last spike. -/
def inRefractory (cfg : NeuronConfig) (t : Int) (last : Option Int) : Bool :=
  match last with
  | none => false
  | some ts => decide (t - ts < (cfg.refractoryPeriod : Int))

/-- Bounded spike history: push already done by the caller, shift past 100. -/
def trimHist (h : List Int) : List Int := if 100 < h.length then h.tail else h

/-- Phase one of updateNeurons for one neuron: refractory check, leak, spike
threshold test; returns the updated neuron and whether it spiked. -/
def stepNeuron (cfg : NeuronConfig) (t : Int) (n : Neuron) : Neuron × Bool :=
  if inRefractory cfg t n.lastSpikeTime then ({ n with isRefractory := true }, false)
  else
    let p := n.potential * (1 - cfg.leakRate)
    if cfg.threshold ≤ p then
      ({ n with
          isRefractory := false
          potential := 0
          lastSpikeTime := some t
          spikeHistory := trimHist (n.spikeHistory ++ [t]) }, true)
    else
      ({ n with isRefractory := false, potential := p }, false)

/-- Total synaptic input delivered to the target by the spiking sources. -/
def spikeInput (neurons : List Neuron) (spikes : List Nat) (target : Nat) : ℝ :=
  (spikes.map (fun sid =>
    ((((neurons.getD sid defaultNeuron).connections.filter
      (fun c => c.1 = target)).map Prod.snd).sum))).sum

/-- The STDP weight adjustment for a source-target spike-time gap. -/
def stdpDelta (cfg : NeuronConfig) (d : Int) : ℝ :=
  if 0 < d then cfg.plasticityRate * Real.exp (-(d : ℝ) / 10)
  else -cfg.plasticityRate * Real.exp ((d : ℝ) / 10)

/-- Clamp a weight into the unit interval around zero. -/
def clamp1 (x : ℝ) : ℝ := max (-1) (min 1 x)

/-- applySTDP: every spiking source adjusts its connections to targets that
have fired, within a window of 20 steps, clamping into the unit band. -/
def applySTDP (cfg : NeuronConfig) (neurons : List Neuron) (spikes : List Nat) :
    List Neuron :=
  neurons.map (fun n =>
    if n.id ∈ spikes then
      { n with connections := n.connections.map (fun c =>
        match (neurons.getD c.1 defaultNeuron).lastSpikeTime, n.lastSpikeTime with
        | some tt, some st =>
          if (tt - st).natAbs < 20 then (c.1, clamp1 (c.2 + stdpDelta cfg (tt - st)))
          else c
        | _, _ => c) }
    else n)

namespace SNN

/-- One simulation time step: leak and spike each neuron, propagate the
spikes along connections, then apply STDP when enabled. -/
def updateNeurons (s : SNN) : SNN :=
  let t := s.timeStep + 1
  let stepped := s.neurons.map (stepNeuron s.config t)
  let neurons1 := stepped.map Prod.fst
  let spikes := (stepped.filter (fun q => q.2)).map (fun q => q.1.id)
  let neurons2 := neurons1.map (fun n =>
    { n with potential := n.potential + spikeInput neurons1 spikes n.id })
  let neurons3 :=
    if s.config.enableSTDP then applySTDP s.config neurons2 spikes else neurons2
  { s with
      neurons := neurons3
      timeStep := t
      globalActivity := (spikes.length : ℝ) / (s.config.numNeurons : ℝ) }

end SNN

/-- Input injection of forward: neuron i*npI+j receives input i. -/
def injectInput (cfg : NeuronConfig) (input : List ℝ) (neurons : List Neuron) :
    List Neuron :=
  let npI := cfg.numNeurons / input.length
  neurons.map (fun n =>
    if npI ≠ 0 ∧ n.id / npI < input.length then
      { n with potential := n.potential + input.getD (n.id / npI) 0 }
    else n)

/-- Output readout of forward: average potential of the mirrored block. -/
def readOutput (cfg : NeuronConfig) (neurons : List Neuron) (len : Nat) : List ℝ :=
  let npI := cfg.numNeurons / len
  (List.range len).map (fun i =>
    let idxs := ((List.range npI).map (fun j =>
      (cfg.numNeurons : Int) - (i * npI + j) - 1)).filter (fun k => decide (0 ≤ k))
    if idxs.length = 0 then 0
    else ((idxs.map (fun k =>
      (neurons.getD k.toNat defaultNeuron).potential)).sum) / (idxs.length : ℝ))

namespace SNN

/-- forward: inject the input, run ten simulation steps, read the output. -/
def forward (input : List ℝ) (s : SNN) : List ℝ × SNN :=
  let s1 := { s with neurons := injectInput s.config input s.neurons }
  let s2 := (List.range 10).foldl (fun st _ => updateNeurons st) s1
  (readOutput s.config s2.neurons input.length, s2)

end SNN

/-- Connection lookup (Map.get with or-zero at the call site). -/
def connLookup (cs : List (Nat × ℝ)) (t : Nat) : Option ℝ :=
  (cs.find? (fun c => c.1 = t)).map Prod.snd

/-- Connection store (Map.set): replace when present, append otherwise. -/
def connSet (t : Nat) (w : ℝ) (cs : List (Nat × ℝ)) : List (Nat × ℝ) :=
  match cs.find? (fun c => c.1 = t) with
  | some _ => cs.map (fun c => if c.1 = t then (t, w) else c)
  | none => cs ++ [(t, w)]

/-- The inner double loop of hebbianLearning over one source neuron. -/
def hebbUpdate (rate : ℝ) (targets : List Nat) (cs : List (Nat × ℝ)) :
    List (Nat × ℝ) :=
  targets.foldl (fun acc t => connSet t (min 1 ((connLookup acc t).getD 0 + rate)) acc) cs

namespace SNN

/-- hebbianLearning: strengthen, by plasticityRate and capped at one, every
connection from a neuron in the active-input block to a neuron in the
active-target block. -/
def hebbianLearning (input target : List ℝ) (s : SNN) : SNN :=
  let npI := s.config.numNeurons / input.length
  let activeInput := ((List.range input.length).filter
    (fun i => decide ((1 : ℝ)/2 < input.getD i 0))).flatMap
      (fun i => (List.range npI).map (fun j => i * npI + j))
  let activeTarget := ((((List.range target.length).filter
    (fun i => decide ((1 : ℝ)/2 < target.getD i 0))).flatMap
      (fun i => (List.range npI).map (fun j =>
        (s.config.numNeurons : Int) - (i * npI + j) - 1))).filter
          (fun k => decide (0 ≤ k))).map Int.toNat
  { s with neurons := s.neurons.map (fun n =>
    if n.id ∈ activeInput then
      { n with connections := hebbUpdate s.config.plasticityRate activeTarget n.connections }
    else n) }

/-- pruneConnections: drop connections whose magnitude is below threshold. -/
def pruneConnections (threshold : ℝ) (s : SNN) : SNN :=
  { s with neurons := s.neurons.map (fun n =>
    { n with connections := n.connections.filter (fun c => decide (threshold ≤ |c.2|)) }) }

end SNN

/-- The operations considered by claim C9. -/
inductive SNNOp where
  | forward (input : List ℝ)
  | hebbian (input target : List ℝ)
  | prune (threshold : ℝ)

def applySNNOp (op : SNNOp) (s : SNN) : SNN :=
  match op with
  | .forward input => (SNN.forward input s).2
  | .hebbian input target => SNN.hebbianLearning input target s
  | .prune th => SNN.pruneConnections th s

def applySNNOps (ops : List SNNOp) (s : SNN) : SNN :=
  ops.foldl (fun t op => applySNNOp op t) s

/-- All connection weights of a neuron lie in the clamp band. -/
def ConnOK (n : Neuron) : Prop := ∀ c ∈ n.connections, (-1 : ℝ) ≤ c.2 ∧ c.2 ≤ 1

/-- All connection weights of the network lie in the clamp band. -/
def NetOK (s : SNN) : Prop := ∀ n ∈ s.neurons, ConnOK n

/-! ### Claim C9: connection weights stay in the clamp band -/

theorem clamp1_mem (x : ℝ) : (-1 : ℝ) ≤ clamp1 x ∧ clamp1 x ≤ 1 :=
  ⟨le_max_left _ _, max_le (by norm_num) (min_le_left _ _)⟩

theorem connLookup_getD_bound (cs : List (Nat × ℝ))
    (h : ∀ c ∈ cs, (-1 : ℝ) ≤ c.2 ∧ c.2 ≤ 1) (t : Nat) :
    (-1 : ℝ) ≤ (connLookup cs t).getD 0 ∧ (connLookup cs t).getD 0 ≤ 1 := by
  unfold connLookup
  cases hf : cs.find? (fun c => decide (c.1 = t)) with
  | none => exact ⟨by norm_num, by norm_num⟩
  | some c =>
    have hm := h c (List.mem_of_find?_eq_some hf)
    simpa using hm

theorem connSet_OK (t : Nat) (w : ℝ) (cs : List (Nat × ℝ))
    (hcs : ∀ c ∈ cs, (-1 : ℝ) ≤ c.2 ∧ c.2 ≤ 1) (hw : (-1 : ℝ) ≤ w ∧ w ≤ 1) :
    ∀ c ∈ connSet t w cs, (-1 : ℝ) ≤ c.2 ∧ c.2 ≤ 1 := by
  intro c hc
  unfold connSet at hc
  split at hc
  · rcases List.mem_map.mp hc with ⟨c0, hc0, rfl⟩
    by_cases h1 : c0.1 = t
    · rw [if_pos h1]
      exact hw
    · rw [if_neg h1]
      exact hcs c0 hc0
  · rcases List.mem_append.mp hc with h1 | h1
    · exact hcs c h1
    · have : c = (t, w) := by simpa using h1
      rw [this]
      exact hw

theorem hebbUpdate_OK (rate : ℝ) (hrate : 0 ≤ rate) (targets : List Nat) :
    ∀ cs : List (Nat × ℝ), (∀ c ∈ cs, (-1 : ℝ) ≤ c.2 ∧ c.2 ≤ 1) →
      ∀ c ∈ hebbUpdate rate targets cs, (-1 : ℝ) ≤ c.2 ∧ c.2 ≤ 1 := by
  induction targets with
  | nil => intro cs h c hc; exact h c hc
  | cons t ts ih =>
    intro cs h
    have hb := connLookup_getD_bound cs h t
    have hw : (-1 : ℝ) ≤ min 1 ((connLookup cs t).getD 0 + rate) ∧
        min 1 ((connLookup cs t).getD 0 + rate) ≤ 1 := by
      constructor
      · apply le_min (by norm_num)
        linarith [hb.1]
      · exact min_le_left _ _
    intro c hc
    exact ih _ (connSet_OK t _ cs h hw) c hc

theorem stepNeuron_connections (cfg : NeuronConfig) (t : Int) (n : Neuron) :
    ((stepNeuron cfg t n).1).connections = n.connections := by
  unfold stepNeuron
  dsimp only
  split
  · rfl
  · split <;> rfl

theorem map_potential_OK (ns : List Neuron) (g : Neuron → ℝ)
    (h : ∀ n ∈ ns, ConnOK n) :
    ∀ m ∈ ns.map (fun n => { n with potential := g n }), ConnOK m := by
  intro m hm
  rcases List.mem_map.mp hm with ⟨m0, hm0, rfl⟩
  exact h m0 hm0

theorem applySTDP_OK (cfg : NeuronConfig) (neurons : List Neuron) (spikes : List Nat)
    (h : ∀ n ∈ neurons, ConnOK n) : ∀ n ∈ applySTDP cfg neurons spikes, ConnOK n := by
  intro n hn
  rcases List.mem_map.mp hn with ⟨n0, hn0, rfl⟩
  by_cases hid : n0.id ∈ spikes
  · rw [if_pos hid]
    intro c hc
    rcases List.mem_map.mp hc with ⟨c0, hc0, rfl⟩
    split
    · split
      · exact clamp1_mem _
      · exact h n0 hn0 c0 hc0
    · exact h n0 hn0 c0 hc0
  · rw [if_neg hid]
    exact h n0 hn0

theorem updateNeurons_OK (s : SNN) (h : NetOK s) : NetOK (SNN.updateNeurons s) := by
  have h1 : ∀ n ∈ (s.neurons.map (stepNeuron s.config (s.timeStep + 1))).map Prod.fst,
      ConnOK n := by
    intro n hn
    rcases List.mem_map.mp hn with ⟨q, hq, rfl⟩
    rcases List.mem_map.mp hq with ⟨n0, hn0, rfl⟩
    intro c hc
    rw [stepNeuron_connections] at hc
    exact h n0 hn0 c hc
  intro n hn
  simp only [SNN.updateNeurons] at hn
  by_cases hstdp : s.config.enableSTDP
  · rw [if_pos hstdp] at hn
    exact applySTDP_OK _ _ _ (map_potential_OK _ _ h1) n hn
  · rw [if_neg hstdp] at hn
    exact map_potential_OK _ _ h1 n hn

theorem injectInput_OK (cfg : NeuronConfig) (input : List ℝ) (neurons : List Neuron)
    (h : ∀ n ∈ neurons, ConnOK n) : ∀ n ∈ injectInput cfg input neurons, ConnOK n := by
  intro n hn
  simp only [injectInput] at hn
  rcases List.mem_map.mp hn with ⟨n0, hn0, rfl⟩
  split
  · exact h n0 hn0
  · exact h n0 hn0

theorem foldl_updateNeurons_OK (l : List Nat) :
    ∀ s : SNN, NetOK s → NetOK (l.foldl (fun st _ => SNN.updateNeurons st) s) := by
  induction l with
  | nil => intro s h; exact h
  | cons a t ih =>
    intro s h
    exact ih _ (updateNeurons_OK s h)

theorem forward_OK (input : List ℝ) (s : SNN) (h : NetOK s) :
    NetOK (SNN.forward input s).2 := by
  have h1 : NetOK { s with neurons := injectInput s.config input s.neurons } := by
    intro n hn
    exact injectInput_OK s.config input s.neurons h n hn
  exact foldl_updateNeurons_OK _ _ h1

theorem hebbianLearning_OK (input target : List ℝ) (s : SNN) (hrate : 0 ≤ s.config.plasticityRate)
    (h : NetOK s) : NetOK (SNN.hebbianLearning input target s) := by
  intro n hn
  simp only [SNN.hebbianLearning] at hn
  rcases List.mem_map.mp hn with ⟨n0, hn0, rfl⟩
  split
  · intro c hc
    exact hebbUpdate_OK _ hrate _ n0.connections (h n0 hn0) c hc
  · exact h n0 hn0

theorem pruneConnections_OK (th : ℝ) (s : SNN) (h : NetOK s) :
    NetOK (SNN.pruneConnections th s) := by
  intro n hn
  simp only [SNN.pruneConnections] at hn
  rcases List.mem_map.mp hn with ⟨n0, hn0, rfl⟩
  intro c hc
  exact h n0 hn0 c (List.mem_of_mem_filter hc)

theorem applySNNOp_OK (op : SNNOp) (s : SNN) (hrate : 0 ≤ s.config.plasticityRate)
    (h : NetOK s) : NetOK (applySNNOp op s) := by
  cases op with
  | forward input => exact forward_OK input s h
  | hebbian input target => exact hebbianLearning_OK input target s hrate h
  | prune th => exact pruneConnections_OK th s h

theorem updateNeurons_config (s : SNN) : (SNN.updateNeurons s).config = s.config := rfl

theorem foldl_updateNeurons_config (l : List Nat) :
    ∀ s : SNN, (l.foldl (fun st _ => SNN.updateNeurons st) s).config = s.config := by
  induction l with
  | nil => intro s; rfl
  | cons a t ih =>
    intro s
    rw [List.foldl_cons, ih, updateNeurons_config]

/-- Every operation leaves the configuration unchanged. -/
theorem applySNNOp_config (op : SNNOp) (s : SNN) : (applySNNOp op s).config = s.config := by
  cases op with
  | forward input => exact foldl_updateNeurons_config (List.range 10) _
  | hebbian input target => rfl
  | prune th => rfl

theorem initSNN_OK (cfg : NeuronConfig) (pdraw : Nat → ℝ) (conn : Nat → Nat → Bool)
    (wdraw : Nat → Nat → ℝ)
    (hdraw : ∀ i j, 0 ≤ wdraw i j ∧ wdraw i j < 1)
    (hs1 : -2 ≤ cfg.synapticStrength) (hs2 : cfg.synapticStrength ≤ 2) :
    NetOK (initSNN cfg pdraw conn wdraw) := by
  intro n hn
  simp only [initSNN] at hn
  rcases List.mem_map.mp hn with ⟨i, _, rfl⟩
  intro c hc
  rcases List.mem_map.mp hc with ⟨j, _, rfl⟩
  obtain ⟨h0, h1⟩ := hdraw i j
  unfold initWeight
  constructor
  · nlinarith [mul_nonneg (by linarith : (0:ℝ) ≤ 1/2 - (wdraw i j - 1/2))
      (by linarith : (0:ℝ) ≤ 2 - cfg.synapticStrength),
      mul_nonneg (by linarith : (0:ℝ) ≤ 1/2 + (wdraw i j - 1/2))
      (by linarith : (0:ℝ) ≤ 2 + cfg.synapticStrength)]
  · nlinarith [mul_nonneg (by linarith : (0:ℝ) ≤ 1/2 - (wdraw i j - 1/2))
      (by linarith : (0:ℝ) ≤ 2 + cfg.synapticStrength),
      mul_nonneg (by linarith : (0:ℝ) ≤ 1/2 + (wdraw i j - 1/2))
      (by linarith : (0:ℝ) ≤ 2 - cfg.synapticStrength)]

/-- C9, amended: with synapticStrength bounded in ABSOLUTE value by two and a
nonnegative plasticityRate, every connection weight lies in the band from
minus one to one at initialization and after any sequence of forward,
hebbianLearning and pruneConnections calls. -/
theorem claim9_weights_clamped (cfg : NeuronConfig) (pdraw : Nat → ℝ)
    (conn : Nat → Nat → Bool) (wdraw : Nat → Nat → ℝ) (ops : List SNNOp)
    (hdraw : ∀ i j, 0 ≤ wdraw i j ∧ wdraw i j < 1)
    (hs1 : -2 ≤ cfg.synapticStrength) (hs2 : cfg.synapticStrength ≤ 2)
    (hrate : 0 ≤ cfg.plasticityRate) :
    NetOK (applySNNOps ops (initSNN cfg pdraw conn wdraw)) := by
  have hmain : ∀ (l : List SNNOp) (s : SNN), s.config = cfg → NetOK s →
      NetOK (applySNNOps l s) := by
    intro l
    induction l with
    | nil => intro s _ h; exact h
    | cons op rest ih =>
      intro s hcfg h
      have hstep := applySNNOp_OK op s (by rw [hcfg]; exact hrate) h
      exact ih _ (by rw [applySNNOp_config, hcfg]) hstep
  exact hmain ops _ rfl (initSNN_OK cfg pdraw conn wdraw hdraw hs1 hs2)

/-- Config of the C9 counterexample: synapticStrength minus three, which
satisfies the bound of the claim as literally stated. -/
def snnCexCfg : NeuronConfig := ⟨2, 1, 5, 1/10, -3, 1/100, true⟩

/-- C9, counterexample: a two-neuron network built with synapticStrength
minus three (which is at most two) and a random draw of zero initializes the
connection weight to three halves, outside the unit band. -/
theorem claim9_counterexample :
    ((0 : ℝ) ≤ 0 ∧ (0 : ℝ) < 1) ∧ snnCexCfg.synapticStrength ≤ 2 ∧
    0 ≤ snnCexCfg.plasticityRate ∧
    ¬ NetOK (initSNN snnCexCfg (fun _ => 0) (fun _ _ => true) (fun _ _ => 0)) := by
  refine ⟨⟨le_refl 0, by norm_num⟩, by norm_num [snnCexCfg], by norm_num [snnCexCfg], ?_⟩
  intro hN
  simp only [NetOK, ConnOK, initSNN, snnCexCfg, initWeight, List.range_succ,
    List.range_zero, List.forall_mem_cons, List.forall_mem_map] at hN
  norm_num at hN

/-- C9, witness for the amended theorem at a concrete configuration. -/
theorem claim9_witness :
    (∀ i j : Nat, 0 ≤ (fun _ _ => (0 : ℝ)) i j ∧ (fun _ _ => (0 : ℝ)) i j < 1) ∧
    -2 ≤ (⟨2, 1, 5, 1/10, 1, 1/100, true⟩ : NeuronConfig).synapticStrength ∧
    (⟨2, 1, 5, 1/10, 1, 1/100, true⟩ : NeuronConfig).synapticStrength ≤ 2 ∧
    0 ≤ (⟨2, 1, 5, 1/10, 1, 1/100, true⟩ : NeuronConfig).plasticityRate ∧
    NetOK (applySNNOps [SNNOp.prune (1/5)]
      (initSNN ⟨2, 1, 5, 1/10, 1, 1/100, true⟩ (fun _ => 0) (fun _ _ => true)
        (fun _ _ => 0))) :=
  ⟨fun _ _ => ⟨le_refl 0, by norm_num⟩, by norm_num, by norm_num, by norm_num,
   claim9_weights_clamped _ _ _ _ _ (fun _ _ => ⟨le_refl 0, by norm_num⟩)
     (by norm_num) (by norm_num) (by norm_num)⟩

/-! ## Fast learner (FastLearner in the source)

Text encodings are 256-bin character-frequency vectors over the reals;
Date.now is an explicit argument. -/

/-- An episodic memory record. -/
structure MemoryRec where
  id : String
  input : List ℝ
  output : List ℝ
  context : String
  timestamp : Int
  accessCount : Nat
  lastAccessed : Int
  importance : ℝ

/-- The FastLearnerConfig record. -/
structure FLConfig where
  episodicMemorySize : Nat
  similarityThreshold : ℝ
  metaLearningRate : ℝ
  adaptiveThreshold : ℝ
  neuronConfig : NeuronConfig

/-- State of the FastLearner class. -/
structure FastLearner where
  episodicMemory : List MemoryRec
  network : SNN
  config : FLConfig
  learningHistory : List (ℝ × Int)

/-- One loop iteration of encodeText: bump the bin of a character code. -/
def binIncr (e : List ℝ) (c : Nat) (v : ℝ) : List ℝ := e.set c (e.getD c 0 + v)

/-- The accumulation loop of encodeText over the character codes. -/
def rawEncode (chars : List Char) : List ℝ :=
  chars.foldl (fun e ch => binIncr e (ch.toNat % 256) (1 / (chars.length : ℝ)))
    (List.replicate 256 0)

/-- encodeText: character-frequency bins, then a normalization pass when the
bin sum is positive. -/
def encodeText (t : String) : List ℝ :=
  let e := rawEncode t.data
  if 0 < e.sum then e.map (fun x => x / e.sum) else e

/-- cosineSimilarity: zero on length mismatch or a zero norm, otherwise the
normalized dot product. -/
def cosineSimilarity (a b : List ℝ) : ℝ :=
  if a.length ≠ b.length then 0
  else
    let dot := (List.zipWith (fun x y => x * y) a b).sum
    let normA := Real.sqrt ((List.zipWith (fun x y => x * y) a a).sum)
    let normB := Real.sqrt ((List.zipWith (fun x y => x * y) b b).sum)
    if normA = 0 ∨ normB = 0 then 0 else dot / (normA * normB)

/-- findSimilar, returning the index of the best match: the memory with the
highest similarity strictly above both the threshold and the running best
(initially zero). -/
def findSimilarIdx (threshold : ℝ) (mem : List MemoryRec) (input : List ℝ) :
    Option Nat :=
  (((List.range mem.length).zip mem).foldl (fun acc p =>
    let sim := cosineSimilarity input p.2.input
    if threshold < sim ∧ acc.2 < sim then (some p.1, sim) else acc)
    ((none : Option Nat), (0 : ℝ))).1

/-- The consolidation ranking score. -/
def memScore (now : Int) (m : MemoryRec) : ℝ :=
  m.importance * Real.log ((m.accessCount : ℝ) + 1) *
    (1 / (((now - m.lastAccessed : Int) : ℝ) + 1))

/-- consolidateMemory: stable-sort by score descending, keep the top
capacity entries. -/
def consolidateMemory (now : Int) (cap : Nat) (mem : List MemoryRec) :
    List MemoryRec :=
  (mem.insertionSort (fun a b => memScore now b ≤ memScore now a)).take cap

/-- In-place mutation of the list element at one index. -/
def updateAt (i : Nat) (f : MemoryRec → MemoryRec) (l : List MemoryRec) :
    List MemoryRec :=
  ((List.range l.length).zip l).map (fun p => if p.1 = i then f p.2 else p.2)

namespace FastLearner

/-- learnFast: recall (bump the match) when a similar memory exists,
otherwise store a new memory, apply one Hebbian update and consolidate past
capacity. -/
def learnFast (now : Int) (ex : TrainingExample) (s : FastLearner) :
    (Bool × Bool) × FastLearner :=
  let input := encodeText ex.input
  let target := encodeText ex.output
  match findSimilarIdx s.config.similarityThreshold s.episodicMemory input with
  | some i =>
    ((false, true),
     { s with episodicMemory := updateAt i (fun m =>
        { m with
            accessCount := m.accessCount + 1
            lastAccessed := now
            importance := m.importance * 1.1 }) s.episodicMemory })
  | none =>
    let mem1 := s.episodicMemory ++ [⟨ex.id, input, target, ex.input, now, 1, now, 1⟩]
    let net1 := SNN.hebbianLearning input target s.network
    let mem2 := if s.config.episodicMemorySize < mem1.length
      then consolidateMemory now s.config.episodicMemorySize mem1 else mem1
    ((true, false), { s with episodicMemory := mem2, network := net1 })

end FastLearner

/-- Root-mean-square prediction error over the common prefix. -/
def computeError (p t : List ℝ) : ℝ :=
  Real.sqrt (((List.zipWith (fun x y => (x - y) * (x - y)) p t).sum) /
    ((min p.length t.length : Nat) : ℝ))

namespace FastLearner

/-- adaptLearningStrategy: scale the meta learning rate by the error trend
over the last ten history entries and clamp it. -/
def adaptLearningStrategy (s : FastLearner) : FastLearner :=
  if s.learningHistory.length < 10 then s
  else
    let recent := s.learningHistory.drop (s.learningHistory.length - 10)
    let trend := (recent.getLastD (0, 0)).1 - (recent.headD (0, 0)).1
    let rate1 := if trend < 0 then s.config.metaLearningRate * 1.05
      else s.config.metaLearningRate * 0.95
    { s with config := { s.config with
        metaLearningRate := max 0.001 (min 0.1 rate1) } }

/-- metaLearn: forward-predict each example through the spiking network,
Hebbian-update on high error, record the mean error, adapt the rate.  (The
JS mean of an empty error list is NaN; the model yields zero there.) -/
def metaLearn (now : Int) (examples : List TrainingExample) (s : FastLearner) :
    FastLearner :=
  let r := examples.foldl (fun (acc : SNN × List ℝ) ex =>
    let input := encodeText ex.input
    let target := encodeText ex.output
    let pr := SNN.forward input acc.1
    let err := computeError pr.1 target
    let net2 := if s.config.adaptiveThreshold < err
      then SNN.hebbianLearning input target pr.2 else pr.2
    (net2, acc.2 ++ [err])) (s.network, [])
  adaptLearningStrategy { s with
    network := r.1
    learningHistory := s.learningHistory ++ [(r.2.sum / (r.2.length : ℝ), now)] }

end FastLearner

/-! ### Claim C8: cosine similarity bounds -/

theorem zipWith_mul_sum_eq (a : List ℝ) :
    ∀ b : List ℝ, a.length = b.length →
      (List.zipWith (fun x y => x * y) a b).sum =
        ∑ i ∈ Finset.range a.length, a.getD i 0 * b.getD i 0 := by
  induction a with
  | nil => intro b _; simp
  | cons x xs ih =>
    intro b h
    cases b with
    | nil => simp at h
    | cons y ys =>
      simp only [List.zipWith_cons_cons, List.sum_cons, List.length_cons]
      rw [Finset.sum_range_succ']
      simp only [List.getD_cons_succ, List.getD_cons_zero]
      rw [ih ys (by simpa using h)]
      ring

theorem sum_sq_eq_zero (v : List ℝ) (h : (v.map (fun x => x * x)).sum = 0) :
    ∀ x ∈ v, x = 0 := by
  induction v with
  | nil => simp
  | cons a t ih =>
    simp only [List.map_cons, List.sum_cons] at h
    have h2 : 0 ≤ (t.map (fun x => x * x)).sum := by
      apply List.sum_nonneg
      intro x hx
      rcases List.mem_map.mp hx with ⟨y, _, rfl⟩
      exact mul_self_nonneg y
    have ha : a * a = 0 := by nlinarith [mul_self_nonneg a]
    intro x hx
    rcases List.mem_cons.mp hx with rfl | hx2
    · exact mul_self_eq_zero.mp ha
    · exact ih (by linarith) x hx2

/-- C8: for equal-length vectors the cosine similarity lies in the unit
interval, and an all-zero vector always yields exactly zero. -/
theorem claim8_cosine_similarity (a b : List ℝ) :
    (a.length = b.length →
      -1 ≤ cosineSimilarity a b ∧ cosineSimilarity a b ≤ 1) ∧
    (((∀ x ∈ a, x = 0) ∨ (∀ x ∈ b, x = 0)) → cosineSimilarity a b = 0) := by
  constructor
  · intro hlen
    unfold cosineSimilarity
    rw [if_neg (by simpa using hlen)]
    by_cases hz : Real.sqrt ((List.zipWith (fun x y => x * y) a a).sum) = 0 ∨
        Real.sqrt ((List.zipWith (fun x y => x * y) b b).sum) = 0
    · rw [if_pos hz]
      norm_num
    · rw [if_neg hz]
      push_neg at hz
      have hA : 0 < Real.sqrt ((List.zipWith (fun x y => x * y) a a).sum) :=
        lt_of_le_of_ne (Real.sqrt_nonneg _) (Ne.symm hz.1)
      have hB : 0 < Real.sqrt ((List.zipWith (fun x y => x * y) b b).sum) :=
        lt_of_le_of_ne (Real.sqrt_nonneg _) (Ne.symm hz.2)
      have hsa : (List.zipWith (fun x y => x * y) a a).sum =
          ∑ i ∈ Finset.range a.length, (a.getD i 0) ^ 2 := by
        rw [zipWith_mul_sum_eq a a rfl]
        exact Finset.sum_congr rfl (fun i _ => by ring)
      have hsb : (List.zipWith (fun x y => x * y) b b).sum =
          ∑ i ∈ Finset.range a.length, (b.getD i 0) ^ 2 := by
        rw [zipWith_mul_sum_eq b b rfl, hlen]
        exact Finset.sum_congr rfl (fun i _ => by ring)
      have hdot : (List.zipWith (fun x y => x * y) a b).sum =
          ∑ i ∈ Finset.range a.length, a.getD i 0 * b.getD i 0 :=
        zipWith_mul_sum_eq a b hlen
      have hub := Real.sum_mul_le_sqrt_mul_sqrt (Finset.range a.length)
        (fun i => a.getD i 0) (fun i => b.getD i 0)
      have hlb := Real.sum_mul_le_sqrt_mul_sqrt (Finset.range a.length)
        (fun i => -(a.getD i 0)) (fun i => b.getD i 0)
      simp only [neg_mul, Finset.sum_neg_distrib, neg_sq] at hlb
      rw [← hsa, ← hsb, ← hdot] at hub hlb
      constructor
      · rw [le_div_iff₀ (mul_pos hA hB)]
        nlinarith [hlb]
      · rw [div_le_one (mul_pos hA hB)]
        exact hub
  · intro hzero
    unfold cosineSimilarity
    by_cases hlen : a.length = b.length
    · rw [if_neg (by simpa using hlen)]
      rcases hzero with hza | hzb
      · have h0 : (List.zipWith (fun x y => x * y) a a).sum = 0 := by
          rw [List.zipWith_same]
          apply List.sum_eq_zero
          intro x hx
          rcases List.mem_map.mp hx with ⟨y, hy, rfl⟩
          rw [hza y hy]
          ring
        rw [if_pos (Or.inl (by rw [h0, Real.sqrt_zero]))]
      · have h0 : (List.zipWith (fun x y => x * y) b b).sum = 0 := by
          rw [List.zipWith_same]
          apply List.sum_eq_zero
          intro x hx
          rcases List.mem_map.mp hx with ⟨y, hy, rfl⟩
          rw [hzb y hy]
          ring
        rw [if_pos (Or.inr (by rw [h0, Real.sqrt_zero]))]
    · rw [if_pos (by simpa using hlen)]

/-- C8, witness at concrete vectors: an orthogonal pair and a zero vector. -/
theorem claim8_witness :
    ([1, 0] : List ℝ).length = ([0, 1] : List ℝ).length ∧
    (-1 ≤ cosineSimilarity [1, 0] [0, 1] ∧ cosineSimilarity [1, 0] [0, 1] ≤ 1) ∧
    (∀ x ∈ ([0, 0] : List ℝ), x = 0) ∧ cosineSimilarity [0, 0] [3, 4] = 0 :=
  ⟨rfl, (claim8_cosine_similarity [1, 0] [0, 1]).1 rfl, by norm_num,
   (claim8_cosine_similarity [0, 0] [3, 4]).2 (Or.inl (by norm_num))⟩

/-! ### Claim C7: idempotent recall -/

theorem length_set_eq (l : List ℝ) (i : Nat) (x : ℝ) : (l.set i x).length = l.length :=
  List.length_set l i x

theorem foldl_binIncr_length (cs : List Char) (v : ℝ) :
    ∀ e : List ℝ,
      (cs.foldl (fun e ch => binIncr e (ch.toNat % 256) v) e).length = e.length := by
  induction cs with
  | nil => intro e; rfl
  | cons c t ih =>
    intro e
    rw [List.foldl_cons, ih]
    exact List.length_set e _ _

theorem rawEncode_length (chars : List Char) : (rawEncode chars).length = 256 := by
  unfold rawEncode
  rw [foldl_binIncr_length]
  exact List.length_replicate 256 0

theorem sum_set_eq (l : List ℝ) : ∀ (i : Nat) (x : ℝ), i < l.length →
    (l.set i x).sum = l.sum - l.getD i 0 + x := by
  induction l with
  | nil => intro i x h; simp at h
  | cons a t ih =>
    intro i x h
    cases i with
    | zero =>
      simp only [List.set_cons_zero, List.sum_cons, List.getD_cons_zero]
      ring
    | succ j =>
      simp only [List.set_cons_succ, List.sum_cons, List.getD_cons_succ]
      rw [ih j x (by simpa using h)]
      ring

theorem binIncr_sum (e : List ℝ) (c : Nat) (v : ℝ) (h : c < e.length) :
    (binIncr e c v).sum = e.sum + v := by
  unfold binIncr
  rw [sum_set_eq e c _ h]
  ring

theorem foldl_binIncr_sum (cs : List Char) (v : ℝ) :
    ∀ e : List ℝ, e.length = 256 →
      (cs.foldl (fun e ch => binIncr e (ch.toNat % 256) v) e).sum =
        e.sum + (cs.length : ℝ) * v := by
  induction cs with
  | nil => intro e _; simp
  | cons c t ih =>
    intro e he
    rw [List.foldl_cons, ih _ (by rw [binIncr, List.length_set]; exact he)]
    rw [binIncr_sum e _ v (by rw [he]; exact Nat.mod_lt _ (by norm_num))]
    simp only [List.length_cons]
    push_cast
    ring

theorem rawEncode_sum (chars : List Char) (h : chars ≠ []) :
    (rawEncode chars).sum = 1 := by
  unfold rawEncode
  rw [foldl_binIncr_sum chars _ _ (List.length_replicate 256 0)]
  have hlen : (chars.length : ℝ) ≠ 0 :=
    Nat.cast_ne_zero.mpr (Nat.pos_iff_ne_zero.mp (List.length_pos.mpr h))
  rw [List.sum_replicate, smul_zero, zero_add, mul_one_div, div_self hlen]

theorem encodeText_eq_raw (t : String) (h : t.data ≠ []) :
    encodeText t = rawEncode t.data := by
  unfold encodeText
  dsimp only
  rw [rawEncode_sum t.data h]
  rw [if_pos (by norm_num : (0:ℝ) < 1)]
  simp

theorem encodeText_sum (t : String) (h : t.data ≠ []) : (encodeText t).sum = 1 := by
  rw [encodeText_eq_raw t h]
  exact rawEncode_sum t.data h

theorem encodeText_not_all_zero (t : String) (h : t.data ≠ []) :
    ¬ ∀ x ∈ encodeText t, x = 0 := by
  intro hall
  have h0 := List.sum_eq_zero hall
  rw [encodeText_sum t h] at h0
  norm_num at h0

theorem cosineSimilarity_self (v : List ℝ) (hv : ¬ ∀ x ∈ v, x = 0) :
    cosineSimilarity v v = 1 := by
  unfold cosineSimilarity
  rw [if_neg (by simp)]
  have hnn : 0 ≤ (List.zipWith (fun x y => x * y) v v).sum := by
    rw [List.zipWith_same]
    apply List.sum_nonneg
    intro x hx
    rcases List.mem_map.mp hx with ⟨y, _, rfl⟩
    exact mul_self_nonneg y
  have hd : 0 < (List.zipWith (fun x y => x * y) v v).sum := by
    rcases lt_or_eq_of_le hnn with h | h
    · exact h
    · exfalso
      apply hv
      apply sum_sq_eq_zero
      rw [← List.zipWith_same (fun x y => x * y) v, ← h]
  have hs : Real.sqrt ((List.zipWith (fun x y => x * y) v v).sum) ≠ 0 :=
    ne_of_gt (Real.sqrt_pos.mpr hd)
  rw [if_neg (by push_neg; exact ⟨hs, hs⟩)]
  rw [Real.mul_self_sqrt hnn]
  exact div_self (ne_of_gt hd)

theorem findSimilarIdx_single (th : ℝ) (m : MemoryRec) (v : List ℝ)
    (hth : th < 1) (hsim : cosineSimilarity v m.input = 1) :
    findSimilarIdx th [m] v = some 0 := by
  unfold findSimilarIdx
  simp only [List.length_cons, List.length_nil, List.range_succ, List.range_zero,
    List.nil_append, List.zip_cons_cons, List.zip_nil_left, List.foldl_cons,
    List.foldl_nil]
  rw [hsim, if_pos ⟨hth, by norm_num⟩]

/-- C7, amended: for a fresh fast learner at threshold 0.85 with memory
capacity at least one and an example with NON-EMPTY input, learning the same
example twice yields learned-then-recall and exactly one stored memory. -/
theorem claim7_idempotent_recall (s : FastLearner) (ex : TrainingExample)
    (now now2 : Int)
    (hmem : s.episodicMemory = [])
    (hth : s.config.similarityThreshold = 0.85)
    (hcap : 1 ≤ s.config.episodicMemorySize)
    (hin : ex.input ≠ "") :
    (FastLearner.learnFast now ex s).1 = (true, false) ∧
    (FastLearner.learnFast now2 ex (FastLearner.learnFast now ex s).2).1 =
      (false, true) ∧
    ((FastLearner.learnFast now2 ex
      (FastLearner.learnFast now ex s).2).2).episodicMemory.length = 1 := by
  have hdata : ex.input.data ≠ [] := by
    intro hd
    apply hin
    apply String.ext
    rw [hd]
  have e0 : findSimilarIdx s.config.similarityThreshold s.episodicMemory
      (encodeText ex.input) = none := by
    rw [hmem]
    rfl
  set s1 := (FastLearner.learnFast now ex s).2 with hs1
  have hmem1 : s1.episodicMemory =
      [⟨ex.id, encodeText ex.input, encodeText ex.output, ex.input, now, 1, now, 1⟩] := by
    rw [hs1]
    simp only [FastLearner.learnFast, e0]
    rw [hmem]
    simp only [List.nil_append, List.length_cons, List.length_nil]
    rw [if_neg (by omega)]
  have hcfg1 : s1.config = s.config := by
    rw [hs1]
    simp only [FastLearner.learnFast, e0]
  have hv := encodeText_not_all_zero ex.input hdata
  have hsim := cosineSimilarity_self (encodeText ex.input) hv
  have e1 : findSimilarIdx s1.config.similarityThreshold s1.episodicMemory
      (encodeText ex.input) = some 0 := by
    rw [hmem1, hcfg1, hth]
    exact findSimilarIdx_single _ _ _ (by norm_num) hsim
  refine ⟨?_, ?_, ?_⟩
  · simp only [FastLearner.learnFast, e0]
  · simp only [FastLearner.learnFast, e1]
  · simp only [FastLearner.learnFast, e1]
    rw [hmem1]
    rfl

/-- The fast-learner configuration of the concrete instances: capacity 1000,
threshold 0.85, on a zero-neuron network. -/
def flCfgW : FLConfig := ⟨1000, 0.85, 1/100, 1/10, ⟨0, 1, 5, 1/10, 1/2, 1/100, true⟩⟩

/-- A fresh FastLearner over that configuration. -/
def flW : FastLearner :=
  ⟨[], initSNN flCfgW.neuronConfig (fun _ => 0) (fun _ _ => false) (fun _ _ => 0),
   flCfgW, []⟩

/-- The example of Scenario C. -/
def exE1 : TrainingExample := ⟨"e1", "hi", "yo", TrainingExample.HIGH, 0⟩

/-- An example with empty input, whose encoding is the zero vector. -/
def exEmpty : TrainingExample := ⟨"e0", "", "", TrainingExample.HIGH, 0⟩

/-- C7, witness: Scenario C at the concrete fresh learner. -/
theorem claim7_witness :
    flW.episodicMemory = [] ∧ flW.config.similarityThreshold = 0.85 ∧
    1 ≤ flW.config.episodicMemorySize ∧ exE1.input ≠ "" ∧
    ((FastLearner.learnFast 0 exE1 flW).1 = (true, false) ∧
     (FastLearner.learnFast 0 exE1 (FastLearner.learnFast 0 exE1 flW).2).1 =
       (false, true) ∧
     ((FastLearner.learnFast 0 exE1
       (FastLearner.learnFast 0 exE1 flW).2).2).episodicMemory.length = 1) :=
  ⟨rfl, rfl, by decide, by decide,
   claim7_idempotent_recall flW exE1 0 0 rfl rfl (by decide) (by decide)⟩

theorem encodeText_empty : encodeText "" = List.replicate 256 (0 : ℝ) := by
  unfold encodeText rawEncode
  dsimp only
  simp only [List.foldl_nil]
  rw [List.sum_replicate, smul_zero]
  rw [if_neg (lt_irrefl 0)]

theorem cosineSimilarity_zero_vec :
    cosineSimilarity (List.replicate 256 (0 : ℝ)) (List.replicate 256 (0 : ℝ)) = 0 := by
  unfold cosineSimilarity
  rw [if_neg (fun h => h rfl)]
  have h0 : (List.zipWith (fun x y => x * y) (List.replicate 256 (0 : ℝ))
      (List.replicate 256 (0 : ℝ))).sum = 0 := by
    rw [List.zipWith_same]
    apply List.sum_eq_zero
    intro x hx
    rcases List.mem_map.mp hx with ⟨y, hy, rfl⟩
    rw [List.eq_of_mem_replicate hy]
    ring
  rw [if_pos (Or.inl (by rw [h0, Real.sqrt_zero]))]

/-- C7, counterexample: learning the example with EMPTY input twice from a
fresh learner stores a memory both times (the zero encoding has similarity
zero with itself, below the threshold), so the second call returns
learned-not-recall and the memory count rises by two. -/
theorem claim7_counterexample :
    (FastLearner.learnFast 0 exEmpty flW).1 = (true, false) ∧
    (FastLearner.learnFast 0 exEmpty (FastLearner.learnFast 0 exEmpty flW).2).1 =
      (true, false) ∧
    ((FastLearner.learnFast 0 exEmpty
      (FastLearner.learnFast 0 exEmpty flW).2).2).episodicMemory.length = 2 ∧
    ¬ ((FastLearner.learnFast 0 exEmpty
      (FastLearner.learnFast 0 exEmpty flW).2).1 = (false, true)) := by
  have e0 : findSimilarIdx flW.config.similarityThreshold flW.episodicMemory
      (encodeText exEmpty.input) = none := rfl
  set s1 := (FastLearner.learnFast 0 exEmpty flW).2 with hs1
  have hmem1 : s1.episodicMemory =
      [⟨"e0", encodeText exEmpty.input, encodeText exEmpty.output, exEmpty.input,
        0, 1, 0, 1⟩] := by
    rw [hs1]
    simp only [FastLearner.learnFast, e0]
    show (if flW.config.episodicMemorySize <
        (flW.episodicMemory ++
          [(⟨exEmpty.id, encodeText exEmpty.input, encodeText exEmpty.output,
            exEmpty.input, 0, 1, 0, 1⟩ : MemoryRec)]).length
        then consolidateMemory 0 flW.config.episodicMemorySize
          (flW.episodicMemory ++
            [(⟨exEmpty.id, encodeText exEmpty.input, encodeText exEmpty.output,
              exEmpty.input, 0, 1, 0, 1⟩ : MemoryRec)])
        else flW.episodicMemory ++
          [(⟨exEmpty.id, encodeText exEmpty.input, encodeText exEmpty.output,
            exEmpty.input, 0, 1, 0, 1⟩ : MemoryRec)]) =
      [(⟨"e0", encodeText exEmpty.input, encodeText exEmpty.output, exEmpty.input,
        0, 1, 0, 1⟩ : MemoryRec)]
    rw [if_neg (by decide)]
    rfl
  have hcfg1 : s1.config = flW.config := by
    rw [hs1]
    simp only [FastLearner.learnFast, e0]
  have hc : cosineSimilarity (encodeText exEmpty.input) (encodeText exEmpty.input) = 0 := by
    have hi : exEmpty.input = "" := rfl
    rw [hi, encodeText_empty]
    exact cosineSimilarity_zero_vec
  have e1 : findSimilarIdx s1.config.similarityThreshold s1.episodicMemory
      (encodeText exEmpty.input) = none := by
    rw [hmem1, hcfg1]
    unfold findSimilarIdx
    simp only [List.length_cons, List.length_nil, List.range_succ, List.range_zero,
      List.nil_append, List.zip_cons_cons, List.zip_nil_left, List.foldl_cons,
      List.foldl_nil]
    rw [hc]
    rw [if_neg (by simp)]
  have hfirst : (FastLearner.learnFast 0 exEmpty flW).1 = (true, false) := by
    simp only [FastLearner.learnFast, e0]
  have hsecond : (FastLearner.learnFast 0 exEmpty s1).1 = (true, false) := by
    simp only [FastLearner.learnFast, e1]
  refine ⟨hfirst, hsecond, ?_, ?_⟩
  · simp only [FastLearner.learnFast, e1]
    rw [hmem1, hcfg1]
    rw [if_neg (by decide)]
    rfl
  · rw [hsecond]
    decide

/-! ## Training engine (src/lib/finetuning/training-engine.ts)

The engine state and trainBatch are embedded with the placeholder forward
pass of the source (all-zero activation caches over the 4096-wide hidden
size); the inference engine and GPU backend are out-of-scope collaborators
and do not appear. -/

/-- The training mode enumeration. -/
inductive TrainMode where
  | lora
  | full
  | hybrid

/-- The TrainingConfig record. -/
structure TrainingConfig where
  mode : TrainMode
  loraConfig : Option LoRAConfig
  learningRate : ℝ
  batchSize : Nat
  maxGradNorm : ℝ
  weightDecay : ℝ
  warmupSteps : Nat
  maxSteps : Nat
  evalInterval : Nat
  saveInterval : Nat
  enableFastLearning : Bool
  enableSimulatedNeurons : Bool
  fastLearnerConfig : Option FLConfig

/-- The TrainingMetrics record of the engine. -/
structure EngineMetrics where
  step : Nat
  loss : ℝ
  learningRate : ℝ
  gradNorm : ℝ
  examplesProcessed : Nat
  timestamp : Int

/-- State of the TrainingEngine class: the three fastLearningStats counters
are flattened into fields. -/
structure TrainingEngine where
  config : TrainingConfig
  loraAdapter : Option LoRAAdapter
  fastLearner : Option FastLearner
  step : Nat
  isTraining : Bool
  metrics : List EngineMetrics
  statsOneShot : Nat
  statsRecalled : Nat
  statsTraditional : Nat

/-- getLearningRate: linear warmup for step below warmupSteps, then cosine
decay driven by the progress toward maxSteps. -/
def getLearningRate (cfg : TrainingConfig) (step : Nat) : ℝ :=
  if step < cfg.warmupSteps then
    cfg.learningRate * ((step : ℝ) / (cfg.warmupSteps : ℝ))
  else
    cfg.learningRate * 0.5 *
      (1 + Real.cos (Real.pi * (((step : ℝ) - (cfg.warmupSteps : ℝ)) /
        ((cfg.maxSteps : ℝ) - (cfg.warmupSteps : ℝ)))))

/-- The cached activations; the placeholder forward pass fills only input
and output. -/
structure ActivationCache where
  input : List (List ℝ)
  norm1 : List (List ℝ)
  Q : List (List ℝ)
  K : List (List ℝ)
  V : List (List ℝ)
  attnScores : List (List ℝ)
  attnWeights : List (List ℝ)
  attnOutput : List (List ℝ)
  residual1 : List (List ℝ)
  norm2 : List (List ℝ)
  gate : List (List ℝ)
  up : List (List ℝ)
  activated : List (List ℝ)
  ffnOutput : List (List ℝ)
  output : List (List ℝ)

/-- The placeholder tokenizer: character codes. -/
def tokenize (t : String) : List Nat := t.data.map Char.toNat

/-- The placeholder forward pass: per position, 4096-wide zero vectors for
input and output, all other caches empty. -/
def forwardWithCache (inputIds : List Nat) : ActivationCache :=
  ⟨List.replicate inputIds.length (List.replicate 4096 0), [], [], [], [], [], [],
   [], [], [], [], [], [], [],
   List.replicate inputIds.length (List.replicate 4096 0)⟩

/-- Math.max over a spread array.  (JS yields minus infinity on an empty
array; the rows here are never empty.) -/
def maxList : List ℝ → ℝ
  | [] => 0
  | x :: xs => xs.foldl max x

/-- computeLoss: max-shifted cross entropy per position, averaged over the
target length. -/
def computeLoss (logits : List (List ℝ)) (targets : List Nat) : ℝ :=
  (((List.range (min logits.length targets.length)).map (fun i =>
    let row := logits.getD i []
    let target := targets.getD i 0
    let logit := row.getD target 0
    let maxLogit := maxList row
    let expSum := (row.map (fun v => Real.exp (v - maxLogit))).sum
    maxLogit + Real.log expSum - logit)).sum) / (targets.length : ℝ)

/-- computeGradOutput: softmax minus the one-hot target per position. -/
def computeGradOutput (logits : List (List ℝ)) (targets : List Nat) :
    List (List ℝ) :=
  (List.range (min logits.length targets.length)).map (fun i =>
    let row := logits.getD i []
    let target := targets.getD i 0
    let maxLogit := maxList row
    let expSum := (row.map (fun v => Real.exp (v - maxLogit))).sum
    (List.range row.length).map (fun j =>
      Real.exp (row.getD j 0 - maxLogit) / expSum - (if j = target then 1 else 0)))

/-- computeGradientNorm: root of the summed squares of all allocated LoRA
gradients. -/
def computeGradientNorm (adOpt : Option LoRAAdapter) : ℝ :=
  Real.sqrt (match adOpt with
    | none => 0
    | some ad => (ad.layers.map (fun p =>
        ((p.2.gradA.getD []).map (fun g => g * g)).sum +
        ((p.2.gradB.getD []).map (fun g => g * g)).sum)).sum)

/-- The engine-level backward pass: per cached position, backprop through
the single hard-wired LoRA module name. -/
def engineBackward (adOpt : Option LoRAAdapter) (cache : ActivationCache)
    (gradOutput : List (List ℝ)) : Option LoRAAdapter :=
  match adOpt with
  | none => none
  | some ad => some ((List.range cache.output.length).foldl (fun a i =>
      LoRAAdapter.backward "layers.0.attention.q" (cache.input.getD i [])
        (gradOutput.getD i []) a) ad)

namespace TrainingEngine

/-- trainExample: tokenize, placeholder forward, loss, output gradient,
backward into LoRA, gradient norm. -/
def trainExample (s : TrainingEngine) (ex : TrainingExample) :
    (ℝ × ℝ) × TrainingEngine :=
  let inputIds := tokenize ex.input
  let targetIds := tokenize ex.output
  let cache := forwardWithCache inputIds
  let loss := computeLoss cache.output targetIds
  let gradOutput := computeGradOutput cache.output targetIds
  let ad1 := engineBackward s.loraAdapter cache gradOutput
  let gradNorm := computeGradientNorm ad1
  ((loss, gradNorm), { s with loraAdapter := ad1 })

/-- updateWeights: Adam through LoRA at the scheduled learning rate. -/
def updateWeights (s : TrainingEngine) : TrainingEngine :=
  { s with
      loraAdapter := s.loraAdapter.map
        (LoRAAdapter.updateParameters (getLearningRate s.config s.step) 0.9 0.999
          1e-8 s.step) }

end TrainingEngine

/-- The fast-learning pass of trainBatch: run learnFast per example,
counting one-shot and recalled examples and collecting the remainder. -/
def fastPass (now : Int) (fl : FastLearner) (examples : List TrainingExample) :
    FastLearner × Nat × Nat × List TrainingExample :=
  examples.foldl (fun acc ex =>
    let r := FastLearner.learnFast now ex acc.1
    if r.1.1 then (r.2, acc.2.1 + 1, acc.2.2.1, acc.2.2.2)
    else if r.1.2 then (r.2, acc.2.1, acc.2.2.1 + 1, acc.2.2.2)
    else (r.2, acc.2.1, acc.2.2.1, acc.2.2.2 ++ [ex]))
    (fl, 0, 0, [])

/-- The per-example loop of trainBatch: accumulate loss and gradient norm,
thread the engine state, count each example as traditionally trained. -/
def trainFold (examples : List TrainingExample) (acc : (ℝ × ℝ) × TrainingEngine) :
    (ℝ × ℝ) × TrainingEngine :=
  examples.foldl (fun acc ex =>
    let t := TrainingEngine.trainExample acc.2 ex
    ((acc.1.1 + t.1.1, acc.1.2 + t.1.2),
     { t.2 with statsTraditional := t.2.statsTraditional + 1 })) acc

namespace TrainingEngine

/-- The traditional-training tail of trainBatch: optional metaLearn, zero
gradients, per-example training, averaging, weight update, step increment,
metrics record appended to the log. -/
def trainTraditional (now : Int) (s : TrainingEngine)
    (examples : List TrainingExample) : EngineMetrics × TrainingEngine :=
  let s1 := match s.fastLearner, examples with
    | some fl, _ :: _ =>
      { s with fastLearner := some (FastLearner.metaLearn now examples fl) }
    | _, _ => s
  let s2 := { s1 with loraAdapter := s1.loraAdapter.map LoRAAdapter.zeroGrad }
  let r := trainFold examples ((0, 0), s2)
  let avgLoss := if 0 < examples.length then r.1.1 / (examples.length : ℝ) else 0.01
  let avgGradNorm := if 0 < examples.length then r.1.2 / (examples.length : ℝ) else 0
  let s3 := updateWeights r.2
  let s4 := { s3 with step := s3.step + 1 }
  let m : EngineMetrics :=
    ⟨s4.step, avgLoss, getLearningRate s4.config s4.step, avgGradNorm,
     examples.length, now⟩
  (m, { s4 with metrics := s4.metrics ++ [m], isTraining := false })

/-- trainBatch: set the training flag, run the fast pass when a fast learner
exists, short-circuit with the fixed minimal loss when nothing remains (the
returned record is NOT appended to the metrics log on that path), otherwise
run traditional training on the remainder. -/
def trainBatch (now : Int) (s0 : TrainingEngine)
    (examples : List TrainingExample) : EngineMetrics × TrainingEngine :=
  let s := { s0 with isTraining := true }
  match s.fastLearner with
  | some fl =>
    let fp := fastPass now fl examples
    let s1 := { s with
      fastLearner := some fp.1
      statsOneShot := s.statsOneShot + fp.2.1
      statsRecalled := s.statsRecalled + fp.2.2.1 }
    if fp.2.2.2.length = 0 then
      (⟨s1.step, 0.01, getLearningRate s1.config (s1.step + 1), 0, examples.length,
        now⟩,
       { s1 with step := s1.step + 1, isTraining := false })
    else
      trainTraditional now s1 fp.2.2.2
  | none => trainTraditional now s examples

end TrainingEngine

/-! ### Claim C6: learning-rate schedule -/

/-- C6: zero at step zero, linear ramp below warmupSteps, exactly the peak
rate at step warmupSteps, and zero again at step maxSteps. -/
theorem claim6_learning_rate_schedule (cfg : TrainingConfig)
    (hw : 0 < cfg.warmupSteps) (hwm : cfg.warmupSteps < cfg.maxSteps) :
    getLearningRate cfg 0 = 0 ∧
    (∀ st, st < cfg.warmupSteps →
      getLearningRate cfg st =
        cfg.learningRate * ((st : ℝ) / (cfg.warmupSteps : ℝ))) ∧
    getLearningRate cfg cfg.warmupSteps = cfg.learningRate ∧
    getLearningRate cfg cfg.maxSteps = 0 := by
  refine ⟨?_, ?_, ?_, ?_⟩
  · unfold getLearningRate
    rw [if_pos hw]
    simp
  · intro st hst
    unfold getLearningRate
    rw [if_pos hst]
  · unfold getLearningRate
    rw [if_neg (lt_irrefl _)]
    rw [sub_self, zero_div, mul_zero, Real.cos_zero]
    ring
  · unfold getLearningRate
    rw [if_neg (not_lt.mpr (le_of_lt hwm))]
    have hne : (cfg.maxSteps : ℝ) - (cfg.warmupSteps : ℝ) ≠ 0 := by
      have hlt : (cfg.warmupSteps : ℝ) < (cfg.maxSteps : ℝ) := by exact_mod_cast hwm
      linarith
    rw [div_self hne, mul_one, Real.cos_pi]
    ring

/-- A concrete engine configuration: peak rate 1, warmup 2, max 4 steps. -/
def engCfgW : TrainingConfig :=
  ⟨TrainMode.full, none, 1, 8, 1, 0, 2, 4, 100, 100, false, false, none⟩

/-- C6, witness at the concrete configuration. -/
theorem claim6_witness :
    0 < engCfgW.warmupSteps ∧ engCfgW.warmupSteps < engCfgW.maxSteps ∧
    (getLearningRate engCfgW 0 = 0 ∧
     (∀ st, st < engCfgW.warmupSteps →
       getLearningRate engCfgW st =
         engCfgW.learningRate * ((st : ℝ) / (engCfgW.warmupSteps : ℝ))) ∧
     getLearningRate engCfgW engCfgW.warmupSteps = engCfgW.learningRate ∧
     getLearningRate engCfgW engCfgW.maxSteps = 0) :=
  ⟨by decide, by decide, claim6_learning_rate_schedule engCfgW (by decide) (by decide)⟩

/-! ### Claim C4: metrics-log growth of trainBatch -/

theorem trainFold_metrics (examples : List TrainingExample) :
    ∀ acc : (ℝ × ℝ) × TrainingEngine,
      ((trainFold examples acc).2).metrics = acc.2.metrics := by
  induction examples with
  | nil => intro acc; rfl
  | cons ex t ih => intro acc; exact ih _

theorem trainTraditional_metrics_len (now : Int) (s : TrainingEngine)
    (examples : List TrainingExample) :
    ((TrainingEngine.trainTraditional now s examples).2).metrics.length =
      s.metrics.length + 1 := by
  simp only [TrainingEngine.trainTraditional, TrainingEngine.updateWeights,
    List.length_append]
  rw [trainFold_metrics]
  cases hf : s.fastLearner <;> cases hx : examples <;> simp

/-- C4, amended: trainBatch appends exactly one metrics record when the
traditional path runs, and appends NOTHING on the fast-learner
short-circuit (the returned record is not pushed to the log). -/
theorem claim4_metrics_growth (now : Int) (s : TrainingEngine)
    (examples : List TrainingExample) :
    ((TrainingEngine.trainBatch now s examples).2).metrics.length =
      (match s.fastLearner with
       | some fl => if (fastPass now fl examples).2.2.2.length = 0
           then s.metrics.length else s.metrics.length + 1
       | none => s.metrics.length + 1) := by
  unfold TrainingEngine.trainBatch
  cases hf : s.fastLearner with
  | none =>
    dsimp only
    exact trainTraditional_metrics_len now _ examples
  | some fl =>
    dsimp only
    by_cases he : (fastPass now fl examples).2.2.2.length = 0
    · rw [if_pos he, if_pos he]
    · rw [if_neg he, if_neg he]
      exact trainTraditional_metrics_len now _ _

/-- The engine configuration of the C4 counterexample, fast learning on. -/
def engCfgFL : TrainingConfig :=
  ⟨TrainMode.full, none, 1, 8, 1, 0, 2, 4, 100, 100, true, false, none⟩

/-- A fresh engine with a fresh fast learner and an empty metrics log. -/
def engFL : TrainingEngine := ⟨engCfgFL, none, some flW, 0, false, [], 0, 0, 0⟩

/-- C4, counterexample: the fast learner one-shot-learns the single example
of the batch, the batch short-circuits, and the metrics log stays empty:
the completed call appended no record. -/
theorem claim4_counterexample :
    ((TrainingEngine.trainBatch 0 engFL [exE1]).2).metrics.length = 0 ∧
    ¬ (((TrainingEngine.trainBatch 0 engFL [exE1]).2).metrics.length =
        engFL.metrics.length + 1) := by
  have e0 : findSimilarIdx flW.config.similarityThreshold flW.episodicMemory
      (encodeText exE1.input) = none := rfl
  have hfp : (fastPass 0 flW [exE1]).2.2.2 = [] := by
    unfold fastPass
    simp [List.foldl_cons, List.foldl_nil, FastLearner.learnFast, e0]
  have hc : (fastPass 0 flW [exE1]).2.2.2.length = 0 := by rw [hfp]; rfl
  have h0 : ((TrainingEngine.trainBatch 0 engFL [exE1]).2).metrics.length = 0 := by
    unfold TrainingEngine.trainBatch
    dsimp only [engFL]
    rw [if_pos hc]
    rfl
  exact ⟨h0, by rw [h0]; decide⟩
